import Mathlib

/-!
The image-cropper repository: the 8-bit bitmap codec and the cropper.

A shallow embedding of `src/bitmap.h` and `src/bitmap.cpp`.

* A byte is a natural number below 256; a file is a `List Nat` of bytes.
* `uint16_t` / `uint32_t` header fields are `Nat`, `int32_t` fields and the
  `int` member `num_padding` are `Int`; wrap-around is written with an explicit
  `% 2 ^ 32`.
* The two headers are declared under `#pragma pack(push, 1)`, so their memory
  image is the little-endian concatenation of their fields (14 and 40 bytes);
  `ifs.read((char *)&hdr, sizeof hdr)` and `ofs.write` move that image.
* `std::ifstream` is the list of bytes not yet consumed, `std::ofstream` the
  list of bytes emitted so far.
* Counted `for` loops are folds over the list of index values the loop variable
  takes; a loop guarded by `&& !flag` is a fold whose body does nothing once the
  flag is set.
-/

namespace ImageCropper

/-! ## Integers in memory -/

/-- Value of a run of bytes read as a little-endian unsigned integer. -/
def le_val : List Nat → Nat
  | [] => 0
  | b :: bs => b + 256 * le_val bs

/-- The `n` bytes that hold the unsigned value `v` in little-endian order. -/
def le_bytes : Nat → Nat → List Nat
  | 0, _ => []
  | n + 1, v => v % 256 :: le_bytes n (v / 256)

/-- Reading a 32-bit pattern as `int32_t` (two's complement). -/
def to_int32 (u : Nat) : Int :=
  if u < 2 ^ 31 then (u : Int) else (u : Int) - 2 ^ 32

/-- The 32-bit pattern of an `int32_t` value. -/
def of_int32 (i : Int) : Nat := (i % 2 ^ 32).toNat

/-! ## `bitmap.h`: the data model -/

/-- The `struct Bitmap_file_header` (14 bytes, packed), with its default member initialisers. -/
structure Bitmap_file_header where
  type : Nat := 0x4D42
  size : Nat := 0
  reserved1 : Nat := 0
  reserved2 : Nat := 0
  off_bits : Nat := 0
  deriving DecidableEq

/-- The `struct DIB_header` (40 bytes, packed), with its default member initialisers. -/
structure DIB_header where
  size : Nat := 0
  width : Int := 0
  height : Int := 0
  planes : Nat := 1
  bit_count : Nat := 0
  compression : Nat := 0
  size_image : Nat := 0
  x_pixels_per_meter : Int := 0
  y_pixels_per_meter : Int := 0
  colors_used : Nat := 0
  colors_important : Nat := 0
  deriving DecidableEq

/-- The data members of `class Bitmap` that are not constants. `color_table` is the
content of the buffer the pointer refers to. -/
structure Bitmap where
  num_padding : Int
  file_header : Bitmap_file_header
  info_header : DIB_header
  color_table : List Nat
  pixel_array : List (List Nat)
  deriving DecidableEq

/-- The member `const int num_colors = 256`. -/
def num_colors : Nat := 256

/-- The member `unsigned char padding[3] = {0, 0, 0}`. -/
def padding : List Nat := [0, 0, 0]

/-- Memory image of a `Bitmap_file_header`: `sizeof(Bitmap_file_header)` = 14 bytes. -/
def Bitmap_file_header.bytes (h : Bitmap_file_header) : List Nat :=
  le_bytes 2 h.type ++ le_bytes 4 h.size ++ le_bytes 2 h.reserved1 ++
    le_bytes 2 h.reserved2 ++ le_bytes 4 h.off_bits

/-- The `Bitmap_file_header` whose memory image is `m`. -/
def Bitmap_file_header.of_bytes (m : List Nat) : Bitmap_file_header where
  type := le_val (m.take 2)
  size := le_val ((m.drop 2).take 4)
  reserved1 := le_val ((m.drop 6).take 2)
  reserved2 := le_val ((m.drop 8).take 2)
  off_bits := le_val ((m.drop 10).take 4)

/-- Memory image of a `DIB_header`: `sizeof(DIB_header)` = 40 bytes. -/
def DIB_header.bytes (h : DIB_header) : List Nat :=
  le_bytes 4 h.size ++ le_bytes 4 (of_int32 h.width) ++ le_bytes 4 (of_int32 h.height) ++
    le_bytes 2 h.planes ++ le_bytes 2 h.bit_count ++ le_bytes 4 h.compression ++
    le_bytes 4 h.size_image ++ le_bytes 4 (of_int32 h.x_pixels_per_meter) ++
    le_bytes 4 (of_int32 h.y_pixels_per_meter) ++ le_bytes 4 h.colors_used ++
    le_bytes 4 h.colors_important

/-- The `DIB_header` whose memory image is `m`. -/
def DIB_header.of_bytes (m : List Nat) : DIB_header where
  size := le_val (m.take 4)
  width := to_int32 (le_val ((m.drop 4).take 4))
  height := to_int32 (le_val ((m.drop 8).take 4))
  planes := le_val ((m.drop 12).take 2)
  bit_count := le_val ((m.drop 14).take 2)
  compression := le_val ((m.drop 16).take 4)
  size_image := le_val ((m.drop 20).take 4)
  x_pixels_per_meter := to_int32 (le_val ((m.drop 24).take 4))
  y_pixels_per_meter := to_int32 (le_val ((m.drop 28).take 4))
  colors_used := le_val ((m.drop 32).take 4)
  colors_important := le_val ((m.drop 36).take 4)

/-- The rvalue `pixel_array[y][x]`. -/
def get_pixel (pixel_array : List (List Nat)) (y x : Nat) : Nat :=
  (pixel_array.getD y []).getD x 0

/-- The assignment `pixel_array[y][x] = v`. -/
def set_pixel (pixel_array : List (List Nat)) (y x v : Nat) : List (List Nat) :=
  pixel_array.set y ((pixel_array.getD y []).set x v)

/-- The expression `(4 - width % 4) % 4` on `int`; C++ `%` truncates towards zero. -/
def row_padding (width : Int) : Int := (4 - width.tmod 4).tmod 4

/-! ## `Bitmap::read` -/

/-- How `Bitmap::read` can end without a usable object. -/
inductive ReadError where
  /-- The message `"Error - unrecognized file format"`, then `exit(1)`. -/
  | unrecognized_format
  /-- The message `"Error - incorrect bit per pixel format"`, then `exit(1)`. -/
  | incorrect_bit_count
  /-- A negative width or height, converted to `size_t`, makes the `std::vector`
  constructor or `resize` throw. -/
  | length_error
  /-- The stream ended before the colour table or a pixel was read: the source
  does not test the stream, and the bytes not read keep an uninitialised value. -/
  | indeterminate
  deriving DecidableEq

/-- Memory of an object after `ifs.read` stored the bytes `got` at its start: a
short read leaves the tail of the object as it was. -/
def overlay (got mem : List Nat) : List Nat := got ++ mem.drop got.length

/-- State of the pixel loops of `Bitmap::read`. -/
structure ReadState where
  ifs : List Nat
  pixel_array : List (List Nat)
  deriving DecidableEq

/-- Body of the inner loop of `Bitmap::read` (lines 60-62): read one byte and store it.
`none` once a read found the stream exhausted (`color_index` is then uninitialised). -/
def read_pixel (y : Nat) (st : Option ReadState) (x : Nat) : Option ReadState :=
  match st with
  | none => none
  | some s =>
    match s.ifs with
    | [] => none
    | color_index :: rest => some ⟨rest, set_pixel s.pixel_array y x color_index⟩

/-- Body of the outer loop of `Bitmap::read` (lines 58-64): one row, then `ifs.ignore(num_padding)`. -/
def read_row (width num_padding : Nat) (st : Option ReadState) (y : Nat) : Option ReadState :=
  match (List.range width).foldl (read_pixel y) st with
  | none => none
  | some s => some ⟨s.ifs.drop num_padding, s.pixel_array⟩

/-- The method `Bitmap::read` applied to a freshly constructed `Bitmap` (as `main` does), on
the content `ifs` of the opened file. Where the file ends before the colour table or a
pixel was read the stored bytes are not determined by the file and the outcome is
`indeterminate`; `read_uninit` below gives the object returned in that case too. -/
def read (ifs : List Nat) : Except ReadError Bitmap :=
  let file_header := Bitmap_file_header.of_bytes
    (overlay (ifs.take 14) ({} : Bitmap_file_header).bytes)
  let ifs := ifs.drop 14
  if file_header.type ≠ 0x4D42 then .error .unrecognized_format
  else
    let info_header := DIB_header.of_bytes (overlay (ifs.take 40) ({} : DIB_header).bytes)
    let ifs := ifs.drop 40
    if info_header.bit_count ≠ 8 then .error .incorrect_bit_count
    else
      let color_table := ifs.take (4 * num_colors)
      let ifs := ifs.drop (4 * num_colors)
      if info_header.height < 0 ∨ info_header.width < 0 then .error .length_error
      else if color_table.length < 4 * num_colors then .error .indeterminate
      else
        let pixel_array :=
          List.replicate info_header.height.toNat (List.replicate info_header.width.toNat 0)
        let num_padding := row_padding info_header.width
        match (List.range info_header.height.toNat).foldl
            (read_row info_header.width.toNat num_padding.toNat) (some ⟨ifs, pixel_array⟩) with
        | none => .error .indeterminate
        | some s => .ok ⟨num_padding, file_header, info_header, color_table, s.pixel_array⟩

/-! ## `Bitmap::write` -/

/-- Body of the outer loop of `Bitmap::write` (lines 95-100): the pixels of row `y`,
then `num_padding` bytes of the member `padding`. -/
def write_row (b : Bitmap) (ofs : List Nat) (y : Nat) : List Nat :=
  (List.range b.info_header.width.toNat).foldl
      (fun ofs x => ofs ++ [get_pixel b.pixel_array y x]) ofs
    ++ padding.take b.num_padding.toNat

/-- The method `Bitmap::write`: the bytes put into the opened output file. -/
def write (b : Bitmap) : List Nat :=
  let ofs := b.file_header.bytes
  let ofs := ofs ++ b.info_header.bytes
  let ofs := ofs ++ b.color_table.take (4 * num_colors)
  (List.range b.info_header.height.toNat).foldl (write_row b) ofs

/-! ## `Bitmap::crop` -/

/-- The index values of `for (int i = lo; i < hi; i++)`. -/
def upto (lo hi : Nat) : List Nat := List.range' lo (hi - lo)

/-- The index values of `for (int i = hi - 1; i >= lo; i--)`. -/
def downto (hi lo : Nat) : List Nat := (List.range' lo (hi - lo)).reverse

/-- The `if` of a scan loop (e.g. lines 128-132) under the loop guard `!flag`.
The state is `none` while `flag` is false and the bound is unassigned, and
`some v` once the bound was assigned `v` and `flag` set. -/
def scan_cell (pixel_array : List (List Nat)) (bkg_color_index y x bound : Nat)
    (st : Option Nat) : Option Nat :=
  match st with
  | some v => some v
  | none => if bkg_color_index ≠ get_pixel pixel_array y x then some bound else none

/-- A row-major scan: outer loop over the rows `ys`, inner loop over the columns `xs`;
the bound is the row of the first differing pixel. -/
def scan_rows (pixel_array : List (List Nat)) (bkg_color_index : Nat) (ys xs : List Nat) :
    Option Nat :=
  ys.foldl (fun st y => xs.foldl (fun st x => scan_cell pixel_array bkg_color_index y x y st) st)
    none

/-- A column-major scan: outer loop over the columns `xs`, inner loop over the rows `ys`;
the bound is the column of the first differing pixel. -/
def scan_cols (pixel_array : List (List Nat)) (bkg_color_index : Nat) (xs ys : List Nat) :
    Option Nat :=
  xs.foldl (fun st x => ys.foldl (fun st y => scan_cell pixel_array bkg_color_index y x x st) st)
    none

/-- The four bounds found by `Bitmap::crop`. -/
structure Bounds where
  y_lower_bound : Nat
  y_upper_bound : Nat
  x_lower_bound : Nat
  x_upper_bound : Nat
  deriving DecidableEq

/-- Lines 120-176 of `Bitmap::crop`: the four scans. `none` when a scan ends with its
bound unassigned (the later code then reads an uninitialised `int`). -/
def crop_bounds (b : Bitmap) : Option Bounds :=
  let height := b.info_header.height.toNat
  let width := b.info_header.width.toNat
  let bkg_color_index := get_pixel b.pixel_array 0 0
  match scan_rows b.pixel_array bkg_color_index (upto 0 height) (upto 0 width) with
  | none => none
  | some y_lower_bound =>
    match scan_cols b.pixel_array bkg_color_index (upto 0 width)
        (upto y_lower_bound height) with
    | none => none
    | some x_lower_bound =>
      let bkg_color_index := get_pixel b.pixel_array (height - 1) (width - 1)
      match scan_rows b.pixel_array bkg_color_index (downto height y_lower_bound)
          (upto x_lower_bound width) with
      | none => none
      | some y_upper_bound =>
        match scan_cols b.pixel_array bkg_color_index (downto width x_lower_bound)
            (upto y_lower_bound (y_upper_bound + 1)) with
        | none => none
        | some x_upper_bound =>
          some ⟨y_lower_bound, y_upper_bound, x_lower_bound, x_upper_bound⟩

/-- Lines 179-204 of `Bitmap::crop`: the new object built from the four bounds. -/
def crop_copy (b : Bitmap) (bd : Bounds) : Bitmap :=
  let height : Int := (bd.y_upper_bound : Int) + 1 - bd.y_lower_bound
  let width : Int := (bd.x_upper_bound : Int) + 1 - bd.x_lower_bound
  let num_padding := row_padding width
  let off_bits := (14 + 40 + 4 * num_colors) % 2 ^ 32
  let size := (((off_bits : Int) + (width + num_padding) * height) % 2 ^ 32).toNat
  let pixel_array := List.replicate height.toNat (List.replicate width.toNat 0)
  let pixel_array := (List.range height.toNat).foldl (fun pa y =>
    (List.range width.toNat).foldl (fun pa x =>
      set_pixel pa y x (get_pixel b.pixel_array (y + bd.y_lower_bound) (x + bd.x_lower_bound)))
      pa) pixel_array
  { num_padding := num_padding
    file_header := { b.file_header with off_bits := off_bits, size := size }
    info_header := { b.info_header with height := height, width := width }
    color_table := b.color_table
    pixel_array := pixel_array }

/-- The method `Bitmap::crop`: the four scans, then the copy. -/
def crop (b : Bitmap) : Option Bitmap :=
  match crop_bounds b with
  | none => none
  | some bd => some (crop_copy b bd)

/-! ## Predicates used in the statements -/

/-- The test of a scan loop: the pixel differs from the background colour. -/
def differs (pixel_array : List (List Nat)) (bkg_color_index y x : Nat) : Bool :=
  decide (bkg_color_index ≠ get_pixel pixel_array y x)

/-- The grid `pixel_array` has `height` rows of `width` cells each. -/
def is_grid (pixel_array : List (List Nat)) (height width : Nat) : Prop :=
  pixel_array.length = height ∧ ∀ row ∈ pixel_array, row.length = width

instance (pixel_array : List (List Nat)) (height width : Nat) :
    Decidable (is_grid pixel_array height width) := by
  unfold is_grid
  infer_instance

/-- Every element is a byte. -/
def is_bytes (l : List Nat) : Prop := ∀ x ∈ l, x < 256

instance (l : List Nat) : Decidable (is_bytes l) := by
  unfold is_bytes
  infer_instance

/-- Every field of the file header holds a value of its C type. -/
def Bitmap_file_header.in_range (h : Bitmap_file_header) : Prop :=
  h.type < 2 ^ 16 ∧ h.size < 2 ^ 32 ∧ h.reserved1 < 2 ^ 16 ∧ h.reserved2 < 2 ^ 16 ∧
    h.off_bits < 2 ^ 32

/-- Every field of the info header holds a value of its C type. -/
def DIB_header.in_range (h : DIB_header) : Prop :=
  h.size < 2 ^ 32 ∧ (-2 ^ 31 ≤ h.width ∧ h.width < 2 ^ 31) ∧
    (-2 ^ 31 ≤ h.height ∧ h.height < 2 ^ 31) ∧ h.planes < 2 ^ 16 ∧ h.bit_count < 2 ^ 16 ∧
    h.compression < 2 ^ 32 ∧ h.size_image < 2 ^ 32 ∧
    (-2 ^ 31 ≤ h.x_pixels_per_meter ∧ h.x_pixels_per_meter < 2 ^ 31) ∧
    (-2 ^ 31 ≤ h.y_pixels_per_meter ∧ h.y_pixels_per_meter < 2 ^ 31) ∧
    h.colors_used < 2 ^ 32 ∧ h.colors_important < 2 ^ 32

/-- Every member of the object holds a value of its C type: header fields in the range
of their integer type, colour table entries and pixels bytes. -/
def Bitmap.in_range (b : Bitmap) : Prop :=
  b.file_header.in_range ∧ b.info_header.in_range ∧ is_bytes b.color_table ∧
    ∀ row ∈ b.pixel_array, is_bytes row

/-- The data-model invariants of an Image: magic `BM`, 8 bits per pixel, non-negative
height and width, a 1024-byte colour table, a grid of `height` rows of `width` cells, and
`num_padding = (4 - width mod 4) mod 4`. -/
def Bitmap.valid (b : Bitmap) : Prop :=
  b.file_header.type = 0x4D42 ∧ b.info_header.bit_count = 8 ∧
    0 ≤ b.info_header.height ∧ 0 ≤ b.info_header.width ∧
    b.color_table.length = 1024 ∧
    is_grid b.pixel_array b.info_header.height.toNat b.info_header.width.toNat ∧
    b.num_padding = (4 - b.info_header.width % 4) % 4

/-- The outcome of `read` is one of the two format errors of the source. -/
def is_format_error (r : Except ReadError Bitmap) : Prop :=
  r = .error .unrecognized_format ∨ r = .error .incorrect_bit_count

/-! ## Fields of a file, by their offset in the file-format table -/

/-- The magic: the little-endian 16-bit value at offset 0. -/
def stream_type (ifs : List Nat) : Nat := le_val (ifs.take 2)

/-- The signed 32-bit width at offset 18. -/
def stream_width (ifs : List Nat) : Int := to_int32 (le_val ((ifs.drop 18).take 4))

/-- The signed 32-bit height at offset 22. -/
def stream_height (ifs : List Nat) : Int := to_int32 (le_val ((ifs.drop 22).take 4))

/-- The bits-per-pixel field: the little-endian 16-bit value at offset 28. -/
def stream_bit_count (ifs : List Nat) : Nat := le_val ((ifs.drop 28).take 2)

/-! ## Concrete images and files used as witnesses -/

/-- A 1024-byte colour table (every byte 0). -/
def blank_table : List Nat := List.replicate 1024 0

/-- An image with the given pixel rows, a blank colour table and default resolution fields. -/
def image_of (height width : Nat) (rows : List (List Nat)) : Bitmap where
  num_padding := row_padding width
  file_header := { off_bits := 1078, size := 1078 + (width + (row_padding width).toNat) * height }
  info_header := { size := 40, width := width, height := height, bit_count := 8 }
  color_table := blank_table
  pixel_array := rows

/-- The 4×4 scenario: all 0 except (1,1) = 5 and (2,2) = 7. -/
def scenario_4x4 : Bitmap :=
  image_of 4 4 [[0, 0, 0, 0], [0, 5, 0, 0], [0, 0, 7, 0], [0, 0, 0, 0]]

/-- The 1×2 image `[[0, 1]]`: its two corners differ. -/
def image_1x2 : Bitmap := image_of 1 2 [[0, 1]]

/-- The 2×1 image `[[0], [1]]`: its two corners differ. -/
def image_2x1 : Bitmap := image_of 2 1 [[0], [1]]

/-- The 2×2 image `[[0, 1], [2, 3]]`: every border pixel differs from both corners. -/
def image_2x2 : Bitmap := image_of 2 2 [[0, 1], [2, 3]]

/-- The 3×3 image that is 0 except for its centre. -/
def image_3x3 : Bitmap := image_of 3 3 [[0, 0, 0], [0, 9, 0], [0, 0, 0]]

/-- A 2-row image whose rows are 5 pixels wide, all of colour 7. -/
def image_2x5 : Bitmap := image_of 2 5 [[7, 7, 7, 7, 7], [7, 7, 7, 7, 7]]

/-- A stream that is not a bitmap: the first bytes of a GIF file. -/
def gif_stream : List Nat := [0x47, 0x49, 0x46, 0x38, 0x39, 0x61]

/-- The first 1078 bytes of the file of a 1×1 image: file header (size 1082, offset 1078),
info header (40 bytes, width 1, height 1, 1 plane, 8 bits per pixel) and a blank colour
table. -/
def file_1x1_head : List Nat :=
  [0x42, 0x4D, 0x3A, 0x04, 0, 0, 0, 0, 0, 0, 0x36, 0x04, 0, 0] ++
  [40, 0, 0, 0, 1, 0, 0, 0, 1, 0, 0, 0, 1, 0, 8, 0, 0, 0, 0, 0, 4, 0, 0, 0,
    0, 0, 0, 0, 0, 0, 0, 0, 0, 0, 0, 0, 0, 0, 0, 0] ++
  blank_table

/-- The file of a 1×1 image of colour 9: the head, one pixel byte and three zero padding
bytes. -/
def file_1x1 : List Nat := file_1x1_head ++ [9, 0, 0, 0]

/-- The Image invariant of the data model: `pixel_array` has exactly
`info_header.height` rows, each of exactly `info_header.width` bytes, and
`num_padding = (4 - info_header.width mod 4) mod 4`. -/
def Bitmap.invariant (b : Bitmap) : Prop :=
  (b.pixel_array.length : Int) = b.info_header.height ∧
    (∀ row ∈ b.pixel_array, (row.length : Int) = b.info_header.width ∧ is_bytes row) ∧
    b.num_padding = (4 - b.info_header.width % 4) % 4

instance (b : Bitmap) : Decidable b.invariant := by
  unfold Bitmap.invariant
  infer_instance

/-- The file `file_1x1` with other values in its three padding bytes. -/
def file_1x1_junk : List Nat := file_1x1_head ++ [9, 0xAA, 0xBB, 0xCC]

/-! ## `Bitmap::read` past the end of the stream

`Bitmap::read` never tests the stream. When the file ends before the colour table or a
pixel was read, the call still returns an object: the bytes that were not read keep the
value their storage had. `read` above gives no result there; the definitions below make
those values explicit, as the prior content `table` of the buffer obtained from
`new unsigned char[4 * num_colors]` and as the byte `junk y x` left in the local
`color_index` when pixel `(y, x)` is stored. -/

/-- Body of the inner loop of `Bitmap::read` (lines 60-62): when the stream is exhausted
`ifs.read` stores nothing and the pixel receives the unspecified byte `junk y x`. -/
def read_pixel_uninit (junk : Nat → Nat → Nat) (y : Nat) (s : ReadState) (x : Nat) :
    ReadState :=
  match s.ifs with
  | [] => ⟨[], set_pixel s.pixel_array y x (junk y x)⟩
  | color_index :: rest => ⟨rest, set_pixel s.pixel_array y x color_index⟩

/-- Body of the outer loop of `Bitmap::read` (lines 58-64), with `read_pixel_uninit`. -/
def read_row_uninit (junk : Nat → Nat → Nat) (width num_padding : Nat) (s : ReadState)
    (y : Nat) : ReadState :=
  ⟨((List.range width).foldl (read_pixel_uninit junk y) s).ifs.drop num_padding,
    ((List.range width).foldl (read_pixel_uninit junk y) s).pixel_array⟩

/-- The method `Bitmap::read` on a freshly constructed `Bitmap`, on every stream: the two
format exits and the failing allocation are those of `read`, and a stream that ends early
leaves the rest of the colour table as in `table` and the pixels not read as in `junk`. -/
def read_uninit (table : List Nat) (junk : Nat → Nat → Nat) (ifs : List Nat) :
    Except ReadError Bitmap :=
  let file_header := Bitmap_file_header.of_bytes
    (overlay (ifs.take 14) ({} : Bitmap_file_header).bytes)
  let ifs := ifs.drop 14
  if file_header.type ≠ 0x4D42 then .error .unrecognized_format
  else
    let info_header := DIB_header.of_bytes (overlay (ifs.take 40) ({} : DIB_header).bytes)
    let ifs := ifs.drop 40
    if info_header.bit_count ≠ 8 then .error .incorrect_bit_count
    else
      let color_table := overlay (ifs.take (4 * num_colors)) table
      let ifs := ifs.drop (4 * num_colors)
      if info_header.height < 0 ∨ info_header.width < 0 then .error .length_error
      else
        let pixel_array :=
          List.replicate info_header.height.toNat (List.replicate info_header.width.toNat 0)
        let num_padding := row_padding info_header.width
        .ok ⟨num_padding, file_header, info_header, color_table,
          ((List.range info_header.height.toNat).foldl
            (read_row_uninit junk info_header.width.toNat num_padding.toNat)
            ⟨ifs, pixel_array⟩).pixel_array⟩

/-! ## The scans as searches -/

theorem scan_cell_some (pa : List (List Nat)) (bkg y x bound v : Nat) :
    scan_cell pa bkg y x bound (some v) = some v := rfl

theorem scan_cell_none (pa : List (List Nat)) (bkg y x bound : Nat) :
    scan_cell pa bkg y x bound none = if differs pa bkg y x then some bound else none := by
  simp [scan_cell, differs]

/-- Once the flag is set an inner loop changes nothing. -/
theorem foldl_scan_cell_some (pa : List (List Nat)) (bkg bound v : Nat) (fy fx : Nat → Nat)
    (l : List Nat) :
    l.foldl (fun st i => scan_cell pa bkg (fy i) (fx i) bound st) (some v) = some v := by
  induction l with
  | nil => rfl
  | cons a l ih => simpa [List.foldl_cons, scan_cell_some] using ih

/-- An inner loop entered with the flag clear sets it iff some cell of the line differs. -/
theorem foldl_scan_cell_none (pa : List (List Nat)) (bkg bound : Nat) (fy fx : Nat → Nat)
    (l : List Nat) :
    l.foldl (fun st i => scan_cell pa bkg (fy i) (fx i) bound st) none =
      if l.any (fun i => differs pa bkg (fy i) (fx i)) then some bound else none := by
  induction l with
  | nil => rfl
  | cons a l ih =>
    rw [List.foldl_cons, scan_cell_none]
    by_cases hd : differs pa bkg (fy a) (fx a) = true
    · simp [hd, foldl_scan_cell_some]
    · have hd2 : differs pa bkg (fy a) (fx a) = false := by simpa using hd
      rw [hd2, List.any_cons, hd2, Bool.false_or]
      simpa using ih

/-- An outer loop whose body keeps a set flag and otherwise records the first index
passing the test is a search for that index. -/
theorem foldl_flag_eq_find (P : Nat → Bool) (F : Option Nat → Nat → Option Nat)
    (hsome : ∀ v i, F (some v) i = some v)
    (hnone : ∀ i, F none i = if P i then some i else none) (l : List Nat) :
    l.foldl F none = l.find? P := by
  induction l with
  | nil => rfl
  | cons a l ih =>
    rw [List.foldl_cons, hnone, List.find?_cons]
    by_cases hp : P a = true
    · simp only [hp, if_true]
      clear ih
      induction l with
      | nil => rfl
      | cons c l ih2 => rw [List.foldl_cons, hsome]; exact ih2
    · simp only [Bool.not_eq_true] at hp
      simp only [hp, Bool.false_eq_true, if_false]
      exact ih

theorem scan_rows_eq_find (pa : List (List Nat)) (bkg : Nat) (ys xs : List Nat) :
    scan_rows pa bkg ys xs = ys.find? (fun y => xs.any (fun x => differs pa bkg y x)) := by
  unfold scan_rows
  apply foldl_flag_eq_find
  · intro v y
    exact foldl_scan_cell_some pa bkg y v (fun _ => y) (fun x => x) xs
  · intro y
    exact foldl_scan_cell_none pa bkg y (fun _ => y) (fun x => x) xs

theorem scan_cols_eq_find (pa : List (List Nat)) (bkg : Nat) (xs ys : List Nat) :
    scan_cols pa bkg xs ys = xs.find? (fun x => ys.any (fun y => differs pa bkg y x)) := by
  unfold scan_cols
  apply foldl_flag_eq_find
  · intro v x
    exact foldl_scan_cell_some pa bkg x v (fun y => y) (fun _ => x) ys
  · intro x
    exact foldl_scan_cell_none pa bkg x (fun y => y) (fun _ => x) ys

theorem mem_upto {lo hi i : Nat} : i ∈ upto lo hi ↔ lo ≤ i ∧ i < hi := by
  unfold upto
  rw [List.mem_range'_1]
  omega

theorem mem_downto {lo hi i : Nat} : i ∈ downto hi lo ↔ lo ≤ i ∧ i < hi := by
  unfold downto
  rw [List.mem_reverse, List.mem_range'_1]
  omega

theorem any_upto (P : Nat → Bool) (lo hi : Nat) :
    (upto lo hi).any P = true ↔ ∃ i, lo ≤ i ∧ i < hi ∧ P i = true := by
  rw [List.any_eq_true]
  constructor
  · rintro ⟨i, hi, hp⟩
    exact ⟨i, (mem_upto.1 hi).1, (mem_upto.1 hi).2, hp⟩
  · rintro ⟨i, h1, h2, hp⟩
    exact ⟨i, mem_upto.2 ⟨h1, h2⟩, hp⟩

/-- An ascending search returns the least index passing the test. -/
theorem find_range_some (P : Nat → Bool) (n lo i : Nat) :
    (List.range' lo n).find? P = some i ↔
      lo ≤ i ∧ i < lo + n ∧ P i = true ∧ ∀ j, lo ≤ j → j < i → P j = false := by
  induction n generalizing lo with
  | zero =>
    simp only [List.range'_zero, List.find?_nil, Nat.add_zero]
    constructor
    · intro h; cases h
    · rintro ⟨h1, h2, _⟩; omega
  | succ n ih =>
    rw [List.range'_succ, List.find?_cons]
    by_cases hp : P lo = true
    · simp only [hp, Option.some.injEq]
      constructor
      · rintro rfl
        exact ⟨le_refl _, by omega, hp, fun j h1 h2 => by omega⟩
      · rintro ⟨h1, _, _, h4⟩
        by_contra hne
        have := h4 lo (le_refl _) (by omega)
        simp [hp] at this
    · simp only [Bool.not_eq_true] at hp
      simp only [hp]
      rw [ih]
      constructor
      · rintro ⟨h1, h2, h3, h4⟩
        refine ⟨by omega, by omega, h3, fun j hj1 hj2 => ?_⟩
        by_cases hj : j = lo
        · rw [hj]; exact hp
        · exact h4 j (by omega) hj2
      · rintro ⟨h1, h2, h3, h4⟩
        have hne : i ≠ lo := by
          rintro rfl
          simp [hp] at h3
        exact ⟨by omega, by omega, h3, fun j hj1 hj2 => h4 j (by omega) hj2⟩

/-- A descending search returns the greatest index passing the test. -/
theorem find_range_reverse_some (P : Nat → Bool) (n lo i : Nat) :
    (List.range' lo n).reverse.find? P = some i ↔
      lo ≤ i ∧ i < lo + n ∧ P i = true ∧ ∀ j, i < j → j < lo + n → P j = false := by
  induction n with
  | zero =>
    simp only [List.range'_zero, List.reverse_nil, List.find?_nil, Nat.add_zero]
    constructor
    · intro h; cases h
    · rintro ⟨h1, h2, _⟩; omega
  | succ n ih =>
    rw [List.range'_concat, List.reverse_append, List.reverse_singleton, List.singleton_append,
      List.find?_cons, Nat.one_mul]
    by_cases hp : P (lo + n) = true
    · simp only [hp, Option.some.injEq]
      constructor
      · rintro rfl
        exact ⟨by omega, by omega, hp, fun j h1 h2 => by omega⟩
      · rintro ⟨_, h2, _, h4⟩
        by_contra hne
        have := h4 (lo + n) (by omega) (by omega)
        simp [hp] at this
    · simp only [Bool.not_eq_true] at hp
      simp only [hp]
      rw [ih]
      constructor
      · rintro ⟨h1, h2, h3, h4⟩
        refine ⟨h1, by omega, h3, fun j hj1 hj2 => ?_⟩
        by_cases hj : j = lo + n
        · rw [hj]; exact hp
        · exact h4 j hj1 (by omega)
      · rintro ⟨h1, h2, h3, h4⟩
        have hne : i ≠ lo + n := by
          rintro rfl
          simp [hp] at h3
        exact ⟨h1, by omega, h3, fun j hj1 hj2 => h4 j hj1 (by omega)⟩

theorem find_upto_some (P : Nat → Bool) (lo hi i : Nat) :
    (upto lo hi).find? P = some i ↔
      lo ≤ i ∧ i < hi ∧ P i = true ∧ ∀ j, lo ≤ j → j < i → P j = false := by
  unfold upto
  rw [find_range_some]
  constructor
  · rintro ⟨h1, h2, h3, h4⟩
    exact ⟨h1, by omega, h3, h4⟩
  · rintro ⟨h1, h2, h3, h4⟩
    exact ⟨h1, by omega, h3, h4⟩

theorem find_downto_some (P : Nat → Bool) (hi lo i : Nat) :
    (downto hi lo).find? P = some i ↔
      lo ≤ i ∧ i < hi ∧ P i = true ∧ ∀ j, i < j → j < hi → P j = false := by
  unfold downto
  rw [find_range_reverse_some]
  constructor
  · rintro ⟨h1, h2, h3, h4⟩
    exact ⟨h1, by omega, h3, fun j hj1 hj2 => h4 j hj1 (by omega)⟩
  · rintro ⟨h1, h2, h3, h4⟩
    exact ⟨h1, by omega, h3, fun j hj1 hj2 => h4 j hj1 (by omega)⟩

/-- A search over a list with an element passing the test finds something. -/
theorem find_isSome_of_mem (P : Nat → Bool) (l : List Nat) (i : Nat) (hi : i ∈ l)
    (hp : P i = true) : ∃ k, l.find? P = some k := by
  cases hf : l.find? P with
  | some k => exact ⟨k, rfl⟩
  | none =>
    rw [List.find?_eq_none] at hf
    exact absurd hp (hf i hi)

/-! ## What each scan of `Bitmap::crop` establishes -/

theorem differs_eq_true {pa : List (List Nat)} {bkg y x : Nat} :
    differs pa bkg y x = true ↔ get_pixel pa y x ≠ bkg := by
  simp only [differs, decide_eq_true_eq]
  exact ⟨fun h e => h e.symm, fun h e => h e.symm⟩

theorem differs_eq_false {pa : List (List Nat)} {bkg y x : Nat} :
    differs pa bkg y x = false ↔ get_pixel pa y x = bkg := by
  simp only [differs, decide_eq_false_iff_not, not_not]
  exact ⟨fun h => h.symm, fun h => h.symm⟩

theorem any_upto_false (P : Nat → Bool) (lo hi : Nat) :
    (upto lo hi).any P = false ↔ ∀ i, lo ≤ i → i < hi → P i = false := by
  rw [List.any_eq_false]
  constructor
  · intro h i h1 h2
    simpa using h i (mem_upto.2 ⟨h1, h2⟩)
  · intro h i hi
    simpa using h i (mem_upto.1 hi).1 (mem_upto.1 hi).2

/-- Some pixel of row `y`, columns `xlo ≤ x < xhi`, differs from `bkg`. -/
theorem row_any_true (pa : List (List Nat)) (bkg y xlo xhi : Nat) :
    (upto xlo xhi).any (fun x => differs pa bkg y x) = true ↔
      ∃ x, xlo ≤ x ∧ x < xhi ∧ get_pixel pa y x ≠ bkg := by
  rw [any_upto]
  simp only [differs_eq_true]

theorem row_any_false (pa : List (List Nat)) (bkg y xlo xhi : Nat) :
    (upto xlo xhi).any (fun x => differs pa bkg y x) = false ↔
      ∀ x, xlo ≤ x → x < xhi → get_pixel pa y x = bkg := by
  rw [any_upto_false]
  simp only [differs_eq_false]

/-- Some pixel of column `x`, rows `ylo ≤ y < yhi`, differs from `bkg`. -/
theorem col_any_true (pa : List (List Nat)) (bkg x ylo yhi : Nat) :
    (upto ylo yhi).any (fun y => differs pa bkg y x) = true ↔
      ∃ y, ylo ≤ y ∧ y < yhi ∧ get_pixel pa y x ≠ bkg := by
  rw [any_upto]
  simp only [differs_eq_true]

theorem col_any_false (pa : List (List Nat)) (bkg x ylo yhi : Nat) :
    (upto ylo yhi).any (fun y => differs pa bkg y x) = false ↔
      ∀ y, ylo ≤ y → y < yhi → get_pixel pa y x = bkg := by
  rw [any_upto_false]
  simp only [differs_eq_false]

/-- Rows scanned upwards (the `y_lower_bound` scan). -/
theorem scan_rows_upto (pa : List (List Nat)) (bkg ylo yhi xlo xhi i : Nat) :
    scan_rows pa bkg (upto ylo yhi) (upto xlo xhi) = some i ↔
      ylo ≤ i ∧ i < yhi ∧ (∃ x, xlo ≤ x ∧ x < xhi ∧ get_pixel pa i x ≠ bkg) ∧
        ∀ j, ylo ≤ j → j < i → ∀ x, xlo ≤ x → x < xhi → get_pixel pa j x = bkg := by
  rw [scan_rows_eq_find, find_upto_some]
  simp only [row_any_true, row_any_false]

/-- Rows scanned downwards (the `y_upper_bound` scan). -/
theorem scan_rows_downto (pa : List (List Nat)) (bkg yhi ylo xlo xhi i : Nat) :
    scan_rows pa bkg (downto yhi ylo) (upto xlo xhi) = some i ↔
      ylo ≤ i ∧ i < yhi ∧ (∃ x, xlo ≤ x ∧ x < xhi ∧ get_pixel pa i x ≠ bkg) ∧
        ∀ j, i < j → j < yhi → ∀ x, xlo ≤ x → x < xhi → get_pixel pa j x = bkg := by
  rw [scan_rows_eq_find, find_downto_some]
  simp only [row_any_true, row_any_false]

/-- Columns scanned upwards (the `x_lower_bound` scan). -/
theorem scan_cols_upto (pa : List (List Nat)) (bkg xlo xhi ylo yhi i : Nat) :
    scan_cols pa bkg (upto xlo xhi) (upto ylo yhi) = some i ↔
      xlo ≤ i ∧ i < xhi ∧ (∃ y, ylo ≤ y ∧ y < yhi ∧ get_pixel pa y i ≠ bkg) ∧
        ∀ j, xlo ≤ j → j < i → ∀ y, ylo ≤ y → y < yhi → get_pixel pa y j = bkg := by
  rw [scan_cols_eq_find, find_upto_some]
  simp only [col_any_true, col_any_false]

/-- Columns scanned downwards (the `x_upper_bound` scan). -/
theorem scan_cols_downto (pa : List (List Nat)) (bkg xhi xlo ylo yhi i : Nat) :
    scan_cols pa bkg (downto xhi xlo) (upto ylo yhi) = some i ↔
      xlo ≤ i ∧ i < xhi ∧ (∃ y, ylo ≤ y ∧ y < yhi ∧ get_pixel pa y i ≠ bkg) ∧
        ∀ j, i < j → j < xhi → ∀ y, ylo ≤ y → y < yhi → get_pixel pa y j = bkg := by
  rw [scan_cols_eq_find, find_downto_some]
  simp only [col_any_true, col_any_false]

/-- A scan over rows finds a bound as soon as the scanned region holds a differing pixel. -/
theorem scan_rows_found (pa : List (List Nat)) (bkg : Nat) (ys : List Nat) (xlo xhi y x : Nat)
    (hy : y ∈ ys) (h1 : xlo ≤ x) (h2 : x < xhi) (hd : get_pixel pa y x ≠ bkg) :
    ∃ k, scan_rows pa bkg ys (upto xlo xhi) = some k := by
  rw [scan_rows_eq_find]
  exact find_isSome_of_mem _ ys y hy ((row_any_true pa bkg y xlo xhi).2 ⟨x, h1, h2, hd⟩)

/-- A scan over columns finds a bound as soon as the scanned region holds a differing pixel. -/
theorem scan_cols_found (pa : List (List Nat)) (bkg : Nat) (xs : List Nat) (ylo yhi y x : Nat)
    (hx : x ∈ xs) (h1 : ylo ≤ y) (h2 : y < yhi) (hd : get_pixel pa y x ≠ bkg) :
    ∃ k, scan_cols pa bkg xs (upto ylo yhi) = some k := by
  rw [scan_cols_eq_find]
  exact find_isSome_of_mem _ xs x hx ((col_any_true pa bkg x ylo yhi).2 ⟨y, h1, h2, hd⟩)

/-- The four scans, one after the other. -/
theorem crop_bounds_eq_some (b : Bitmap) (bd : Bounds) :
    crop_bounds b = some bd ↔
      scan_rows b.pixel_array (get_pixel b.pixel_array 0 0)
          (upto 0 b.info_header.height.toNat) (upto 0 b.info_header.width.toNat)
        = some bd.y_lower_bound ∧
      scan_cols b.pixel_array (get_pixel b.pixel_array 0 0)
          (upto 0 b.info_header.width.toNat) (upto bd.y_lower_bound b.info_header.height.toNat)
        = some bd.x_lower_bound ∧
      scan_rows b.pixel_array
          (get_pixel b.pixel_array (b.info_header.height.toNat - 1) (b.info_header.width.toNat - 1))
          (downto b.info_header.height.toNat bd.y_lower_bound)
          (upto bd.x_lower_bound b.info_header.width.toNat)
        = some bd.y_upper_bound ∧
      scan_cols b.pixel_array
          (get_pixel b.pixel_array (b.info_header.height.toNat - 1) (b.info_header.width.toNat - 1))
          (downto b.info_header.width.toNat bd.x_lower_bound)
          (upto bd.y_lower_bound (bd.y_upper_bound + 1))
        = some bd.x_upper_bound := by
  obtain ⟨yl, yu, xl, xu⟩ := bd
  simp only [crop_bounds]
  constructor
  · intro h
    split at h
    · cases h
    · split at h
      · cases h
      · split at h
        · cases h
        · split at h
          · cases h
          · simp only [Option.some.injEq, Bounds.mk.injEq] at h
            obtain ⟨rfl, rfl, rfl, rfl⟩ := h
            exact ⟨by assumption, by assumption, by assumption, by assumption⟩
  · rintro ⟨h1, h2, h3, h4⟩
    simp only [h1, h2, h3, h4]

/-! ## The bounding rectangle -/

/-- With both corners of colour `bkg` and a pixel that differs from it, every scan finds a
pixel: each scanned region contains the pixel found by the scan before it. -/
theorem crop_bounds_of_equal_corners (b : Bitmap) (bkg : Nat)
    (h00 : get_pixel b.pixel_array 0 0 = bkg)
    (h11 : get_pixel b.pixel_array (b.info_header.height.toNat - 1)
      (b.info_header.width.toNat - 1) = bkg)
    (hex : ∃ r c, r < b.info_header.height.toNat ∧ c < b.info_header.width.toNat ∧
      get_pixel b.pixel_array r c ≠ bkg) :
    ∃ bd, crop_bounds b = some bd := by
  obtain ⟨r0, c0, hr0, hc0, hd0⟩ := hex
  -- the `y_lower_bound` scan
  obtain ⟨yl, hyl⟩ := scan_rows_found b.pixel_array bkg (upto 0 b.info_header.height.toNat)
    0 b.info_header.width.toNat r0 c0 (mem_upto.2 ⟨Nat.zero_le _, hr0⟩) (Nat.zero_le _) hc0 hd0
  obtain ⟨-, hylh, ⟨x1, -, hx1w, hx1⟩, -⟩ := (scan_rows_upto _ _ _ _ _ _ _).1 hyl
  -- the `x_lower_bound` scan
  obtain ⟨xl, hxl⟩ := scan_cols_found b.pixel_array bkg (upto 0 b.info_header.width.toNat)
    yl b.info_header.height.toNat yl x1 (mem_upto.2 ⟨Nat.zero_le _, hx1w⟩) (le_refl _) hylh hx1
  obtain ⟨-, hxlw, ⟨y2, hy2l, hy2h, hy2⟩, -⟩ := (scan_cols_upto _ _ _ _ _ _ _).1 hxl
  -- the `y_upper_bound` scan
  obtain ⟨yu, hyu⟩ := scan_rows_found b.pixel_array bkg (downto b.info_header.height.toNat yl)
    xl b.info_header.width.toNat y2 xl (mem_downto.2 ⟨hy2l, hy2h⟩) (le_refl _) hxlw hy2
  obtain ⟨hylu, -, ⟨x3, hx3l, hx3w, hx3⟩, -⟩ := (scan_rows_downto _ _ _ _ _ _ _).1 hyu
  -- the `x_upper_bound` scan
  obtain ⟨xu, hxu⟩ := scan_cols_found b.pixel_array bkg (downto b.info_header.width.toNat xl)
    yl (yu + 1) yu x3 (mem_downto.2 ⟨hx3l, hx3w⟩) hylu (Nat.lt_succ_self _) hx3
  refine ⟨⟨yl, yu, xl, xu⟩, ?_⟩
  rw [crop_bounds_eq_some]
  simp only [h00, h11]
  exact ⟨hyl, hxl, hyu, hxu⟩

/-- C2 (bounding rectangle): when both corners hold the colour `bkg` and some pixel differs
from it, the four scans all succeed, the rectangle they give lies inside the image and
contains every pixel that differs from `bkg`, and each of its four sides holds such a pixel;
so `y_lower_bound` / `y_upper_bound` are the least / greatest row and `x_lower_bound` /
`x_upper_bound` the least / greatest column holding a differing pixel. -/
theorem crop_bounds_smallest_rectangle (b : Bitmap) (bkg : Nat)
    (_hh : 1 ≤ b.info_header.height) (_hw : 1 ≤ b.info_header.width)
    (h00 : get_pixel b.pixel_array 0 0 = bkg)
    (h11 : get_pixel b.pixel_array (b.info_header.height.toNat - 1)
      (b.info_header.width.toNat - 1) = bkg)
    (hex : ∃ r c, r < b.info_header.height.toNat ∧ c < b.info_header.width.toNat ∧
      get_pixel b.pixel_array r c ≠ bkg) :
    ∃ bd, crop_bounds b = some bd ∧
      bd.y_lower_bound ≤ bd.y_upper_bound ∧ bd.y_upper_bound < b.info_header.height.toNat ∧
      bd.x_lower_bound ≤ bd.x_upper_bound ∧ bd.x_upper_bound < b.info_header.width.toNat ∧
      (∀ r c, r < b.info_header.height.toNat → c < b.info_header.width.toNat →
        get_pixel b.pixel_array r c ≠ bkg →
          bd.y_lower_bound ≤ r ∧ r ≤ bd.y_upper_bound ∧
          bd.x_lower_bound ≤ c ∧ c ≤ bd.x_upper_bound) ∧
      (∃ c, c < b.info_header.width.toNat ∧ get_pixel b.pixel_array bd.y_lower_bound c ≠ bkg) ∧
      (∃ c, c < b.info_header.width.toNat ∧ get_pixel b.pixel_array bd.y_upper_bound c ≠ bkg) ∧
      (∃ r, r < b.info_header.height.toNat ∧ get_pixel b.pixel_array r bd.x_lower_bound ≠ bkg) ∧
      (∃ r, r < b.info_header.height.toNat ∧ get_pixel b.pixel_array r bd.x_upper_bound ≠ bkg) := by
  obtain ⟨bd, hbd⟩ := crop_bounds_of_equal_corners b bkg h00 h11 hex
  obtain ⟨s1, s2, s3, s4⟩ := (crop_bounds_eq_some b bd).1 hbd
  rw [h00] at s1 s2
  rw [h11] at s3 s4
  obtain ⟨-, -, ⟨x1, -, hx1w, hx1⟩, hyl_min⟩ := (scan_rows_upto _ _ _ _ _ _ _).1 s1
  obtain ⟨-, -, ⟨y2, -, hy2h, hy2⟩, hxl_min⟩ := (scan_cols_upto _ _ _ _ _ _ _).1 s2
  obtain ⟨hylu, hyuh, ⟨x3, -, hx3w, hx3⟩, hyu_max⟩ := (scan_rows_downto _ _ _ _ _ _ _).1 s3
  obtain ⟨hxlu, hxuw, ⟨y4, -, hy4u, hy4⟩, hxu_max⟩ := (scan_cols_downto _ _ _ _ _ _ _).1 s4
  refine ⟨bd, hbd, hylu, hyuh, hxlu, hxuw, ?_, ⟨x1, hx1w, hx1⟩, ⟨x3, hx3w, hx3⟩,
    ⟨y2, hy2h, hy2⟩, ⟨y4, by omega, hy4⟩⟩
  intro r c hr hc hd
  have a1 : bd.y_lower_bound ≤ r := by
    by_contra hlt
    exact hd (hyl_min r (Nat.zero_le _) (by omega) c (Nat.zero_le _) hc)
  have a2 : bd.x_lower_bound ≤ c := by
    by_contra hlt
    exact hd (hxl_min c (Nat.zero_le _) (by omega) r a1 hr)
  have a3 : r ≤ bd.y_upper_bound := by
    by_contra hlt
    exact hd (hyu_max r (by omega) hr c a2 hc)
  have a4 : c ≤ bd.x_upper_bound := by
    by_contra hlt
    exact hd (hxu_max c (by omega) hc r a1 (by omega))
  exact ⟨a1, a3, a2, a4⟩

/-- C2, witness: the 4×4 scenario image satisfies the hypotheses; its bounds are
`y_lower = 1`, `y_upper = 2`, `x_lower = 1`, `x_upper = 2` and the crop is `[[5,0],[0,7]]`. -/
theorem crop_bounds_smallest_rectangle_witness :
    crop_bounds scenario_4x4 = some ⟨1, 2, 1, 2⟩ ∧
    (crop scenario_4x4).map (fun c => c.pixel_array) = some [[5, 0], [0, 7]] ∧
    ∃ bd, crop_bounds scenario_4x4 = some bd ∧
      bd.y_lower_bound ≤ bd.y_upper_bound ∧
      bd.y_upper_bound < scenario_4x4.info_header.height.toNat ∧
      bd.x_lower_bound ≤ bd.x_upper_bound ∧
      bd.x_upper_bound < scenario_4x4.info_header.width.toNat ∧
      (∀ r c, r < scenario_4x4.info_header.height.toNat →
        c < scenario_4x4.info_header.width.toNat →
        get_pixel scenario_4x4.pixel_array r c ≠ 0 →
          bd.y_lower_bound ≤ r ∧ r ≤ bd.y_upper_bound ∧
          bd.x_lower_bound ≤ c ∧ c ≤ bd.x_upper_bound) ∧
      (∃ c, c < scenario_4x4.info_header.width.toNat ∧
        get_pixel scenario_4x4.pixel_array bd.y_lower_bound c ≠ 0) ∧
      (∃ c, c < scenario_4x4.info_header.width.toNat ∧
        get_pixel scenario_4x4.pixel_array bd.y_upper_bound c ≠ 0) ∧
      (∃ r, r < scenario_4x4.info_header.height.toNat ∧
        get_pixel scenario_4x4.pixel_array r bd.x_lower_bound ≠ 0) ∧
      (∃ r, r < scenario_4x4.info_header.height.toNat ∧
        get_pixel scenario_4x4.pixel_array r bd.x_upper_bound ≠ 0) :=
  ⟨by decide, by decide,
    crop_bounds_smallest_rectangle scenario_4x4 0 (by decide) (by decide) (by decide) (by decide)
      ⟨1, 1, by decide, by decide, by decide⟩⟩

/-! ## Grids: `pixel_array[y][x]` read and written -/

theorem is_grid_replicate (h w : Nat) : is_grid (List.replicate h (List.replicate w 0)) h w := by
  constructor
  · simp
  · intro row hrow
    rw [List.mem_replicate] at hrow
    rw [hrow.2]
    simp

theorem is_grid_row_length {pa : List (List Nat)} {h w : Nat} (hg : is_grid pa h w) {y : Nat}
    (hy : y < h) : (pa.getD y []).length = w := by
  have hlt : y < pa.length := by rw [hg.1]; exact hy
  rw [List.getD_eq_getElem _ _ hlt]
  exact hg.2 _ (List.getElem_mem _)

theorem is_grid_set_pixel {pa : List (List Nat)} {h w : Nat} (hg : is_grid pa h w)
    (y x v : Nat) : is_grid (set_pixel pa y x v) h w := by
  unfold set_pixel
  constructor
  · rw [List.length_set]; exact hg.1
  · intro row hrow
    by_cases hy : y < pa.length
    · rcases List.mem_or_eq_of_mem_set hrow with hmem | heq
      · exact hg.2 row hmem
      · rw [heq, List.length_set, List.getD_eq_getElem _ _ hy]
        exact hg.2 _ (List.getElem_mem _)
    · rw [List.set_eq_of_length_le (by omega)] at hrow
      exact hg.2 row hrow

theorem getD_set_eq {α : Type} (l : List α) (i j : Nat) (a d : α) :
    (l.set i a).getD j d = if i = j ∧ i < l.length then a else l.getD j d := by
  simp only [List.getD_eq_getElem?_getD, List.getElem?_set]
  by_cases hij : i = j
  · subst hij
    by_cases hi : i < l.length
    · simp [hi]
    · have hnone : l[i]? = none := List.getElem?_eq_none (by omega)
      simp [hi, hnone]
  · simp [hij]

/-- Reading a cell after one assignment. -/
theorem get_pixel_set_pixel (pa : List (List Nat)) (y x v r c : Nat) :
    get_pixel (set_pixel pa y x v) r c =
      if r = y ∧ c = x ∧ y < pa.length ∧ x < (pa.getD y []).length then v
      else get_pixel pa r c := by
  unfold get_pixel set_pixel
  rw [getD_set_eq]
  by_cases hr : y = r
  · subst hr
    by_cases hy : y < pa.length
    · simp only [hy, and_self, if_true, true_and]
      rw [getD_set_eq]
      by_cases hc : x = c
      · subst hc
        simp
      · have hc2 : ¬ c = x := fun h => hc h.symm
        simp [hc, hc2]
    · simp [hy]
  · have hr2 : ¬ r = y := fun h => hr h.symm
    simp [hr, hr2]

/-- The inner loop of a copy: cells `0 .. k-1` of row `y` are assigned. -/
theorem fill_row (f : Nat → Nat) (y h w : Nat) (hy : y < h) (k : Nat) (hk : k ≤ w)
    (pa : List (List Nat)) (hg : is_grid pa h w) :
    is_grid ((List.range k).foldl (fun pa x => set_pixel pa y x (f x)) pa) h w ∧
    ∀ r c, get_pixel ((List.range k).foldl (fun pa x => set_pixel pa y x (f x)) pa) r c =
      if r = y ∧ c < k then f c else get_pixel pa r c := by
  induction k with
  | zero => exact ⟨hg, fun r c => by simp⟩
  | succ k ih =>
    obtain ⟨hg1, hpx⟩ := ih (by omega)
    rw [List.range_succ, List.foldl_append, List.foldl_cons, List.foldl_nil]
    refine ⟨is_grid_set_pixel hg1 _ _ _, fun r c => ?_⟩
    rw [get_pixel_set_pixel, hpx, hg1.1, is_grid_row_length hg1 hy]
    by_cases hr : r = y
    · by_cases hc : c = k
      · have hlt : k < w := by omega
        simp [hr, hc, hy, hlt]
      · by_cases hc2 : c < k
        · have hc3 : c < k + 1 := by omega
          simp [hr, hc, hc2, hc3]
        · have hc3 : ¬ c < k + 1 := by omega
          simp [hr, hc, hc2, hc3]
    · simp [hr]

/-- The two nested loops of a copy: rows `0 .. k-1` are assigned. -/
theorem fill_grid (f : Nat → Nat → Nat) (h w k : Nat) (hk : k ≤ h)
    (pa : List (List Nat)) (hg : is_grid pa h w) :
    is_grid ((List.range k).foldl (fun pa y =>
        (List.range w).foldl (fun pa x => set_pixel pa y x (f y x)) pa) pa) h w ∧
    ∀ r c, get_pixel ((List.range k).foldl (fun pa y =>
        (List.range w).foldl (fun pa x => set_pixel pa y x (f y x)) pa) pa) r c =
      if r < k ∧ c < w then f r c else get_pixel pa r c := by
  induction k with
  | zero => exact ⟨hg, fun r c => by simp⟩
  | succ k ih =>
    obtain ⟨hg1, hpx⟩ := ih (by omega)
    rw [List.range_succ, List.foldl_append, List.foldl_cons, List.foldl_nil]
    obtain ⟨hg2, hpx2⟩ := fill_row (f k) k h w (by omega) w (le_refl _) _ hg1
    refine ⟨hg2, fun r c => ?_⟩
    rw [hpx2, hpx]
    by_cases hr : r = k
    · by_cases hc : c < w
      · simp [hr, hc]
      · simp [hr, hc]
    · by_cases hr2 : r < k
      · have hr3 : r < k + 1 := by omega
        simp [hr, hr2, hr3]
      · have hr3 : ¬ r < k + 1 := by omega
        simp [hr, hr2, hr3]

/-- Two grids of the same shape with the same cells are equal. -/
theorem grid_ext {g1 g2 : List (List Nat)} {h w : Nat} (h1 : is_grid g1 h w)
    (h2 : is_grid g2 h w)
    (hpx : ∀ r c, r < h → c < w → get_pixel g1 r c = get_pixel g2 r c) : g1 = g2 := by
  apply List.ext_getElem (by rw [h1.1, h2.1])
  intro r hr1 hr2
  have hrh : r < h := by rw [← h1.1]; exact hr1
  have hl1 : (g1[r]).length = w := h1.2 _ (List.getElem_mem _)
  have hl2 : (g2[r]).length = w := h2.2 _ (List.getElem_mem _)
  apply List.ext_getElem (by rw [hl1, hl2])
  intro c hc1 hc2
  have := hpx r c hrh (by rw [← hl1]; exact hc1)
  unfold get_pixel at this
  rw [List.getD_eq_getElem _ _ hr1, List.getD_eq_getElem _ _ hr2,
    List.getD_eq_getElem _ _ hc1, List.getD_eq_getElem _ _ hc2] at this
  exact this

/-! ## The object built by `Bitmap::crop` -/

/-- The scans leave the bounds ordered and inside the image. -/
theorem crop_bounds_ordered (b : Bitmap) (bd : Bounds) (hb : crop_bounds b = some bd) :
    bd.y_lower_bound ≤ bd.y_upper_bound ∧ bd.y_upper_bound < b.info_header.height.toNat ∧
    bd.x_lower_bound ≤ bd.x_upper_bound ∧ bd.x_upper_bound < b.info_header.width.toNat := by
  obtain ⟨-, -, h3, h4⟩ := (crop_bounds_eq_some b bd).1 hb
  have s3 := (scan_rows_downto _ _ _ _ _ _ _).1 h3
  have s4 := (scan_cols_downto _ _ _ _ _ _ _).1 h4
  exact ⟨s3.1, s3.2.1, s4.1, s4.2.1⟩

theorem crop_eq_some (b : Bitmap) (bd : Bounds) (hb : crop_bounds b = some bd) :
    crop b = some (crop_copy b bd) := by
  simp only [crop, hb]

/-- Shape and content of the pixel grid of the copy. -/
theorem crop_copy_pixels (b : Bitmap) (bd : Bounds) :
    is_grid (crop_copy b bd).pixel_array
      (bd.y_upper_bound + 1 - bd.y_lower_bound) (bd.x_upper_bound + 1 - bd.x_lower_bound) ∧
    ∀ r c, r < bd.y_upper_bound + 1 - bd.y_lower_bound →
      c < bd.x_upper_bound + 1 - bd.x_lower_bound →
      get_pixel (crop_copy b bd).pixel_array r c =
        get_pixel b.pixel_array (r + bd.y_lower_bound) (c + bd.x_lower_bound) := by
  have hh : ((bd.y_upper_bound : Int) + 1 - bd.y_lower_bound).toNat =
      bd.y_upper_bound + 1 - bd.y_lower_bound := by omega
  have hw : ((bd.x_upper_bound : Int) + 1 - bd.x_lower_bound).toNat =
      bd.x_upper_bound + 1 - bd.x_lower_bound := by omega
  simp only [crop_copy, hh, hw]
  obtain ⟨hg, hpx⟩ := fill_grid
    (fun y x => get_pixel b.pixel_array (y + bd.y_lower_bound) (x + bd.x_lower_bound))
    (bd.y_upper_bound + 1 - bd.y_lower_bound) (bd.x_upper_bound + 1 - bd.x_lower_bound)
    (bd.y_upper_bound + 1 - bd.y_lower_bound) (le_refl _) _ (is_grid_replicate _ _)
  refine ⟨hg, fun r c hr hc => ?_⟩
  rw [hpx]
  simp [hr, hc]

/-! ## Claims about `Bitmap::crop` -/

/-- C3 (crop containment): when the four scans each find their bound, `crop` returns an image
of height `y_upper - y_lower + 1` and width `x_upper - x_lower + 1` whose grid has exactly
that many rows and columns, and cell `(r, c)` of the result is cell
`(r + y_lower, c + x_lower)` of the source, a cell inside the source's declared size. -/
theorem crop_containment (b : Bitmap) (bd : Bounds) (hb : crop_bounds b = some bd) :
    ∃ copy, crop b = some copy ∧
      copy.info_header.height = (bd.y_upper_bound : Int) - bd.y_lower_bound + 1 ∧
      copy.info_header.width = (bd.x_upper_bound : Int) - bd.x_lower_bound + 1 ∧
      copy.pixel_array.length = bd.y_upper_bound - bd.y_lower_bound + 1 ∧
      (∀ row ∈ copy.pixel_array, row.length = bd.x_upper_bound - bd.x_lower_bound + 1) ∧
      ∀ r c, r < bd.y_upper_bound - bd.y_lower_bound + 1 →
        c < bd.x_upper_bound - bd.x_lower_bound + 1 →
        get_pixel copy.pixel_array r c =
          get_pixel b.pixel_array (r + bd.y_lower_bound) (c + bd.x_lower_bound) ∧
        r + bd.y_lower_bound < b.info_header.height.toNat ∧
        c + bd.x_lower_bound < b.info_header.width.toNat := by
  obtain ⟨h1, h2, h3, h4⟩ := crop_bounds_ordered b bd hb
  obtain ⟨hg, hpx⟩ := crop_copy_pixels b bd
  have e1 : bd.y_upper_bound + 1 - bd.y_lower_bound = bd.y_upper_bound - bd.y_lower_bound + 1 := by
    omega
  have e2 : bd.x_upper_bound + 1 - bd.x_lower_bound = bd.x_upper_bound - bd.x_lower_bound + 1 := by
    omega
  rw [e1, e2] at hg hpx
  refine ⟨crop_copy b bd, crop_eq_some b bd hb, ?_, ?_, hg.1, hg.2, fun r c hr hc => ?_⟩
  · simp only [crop_copy]; omega
  · simp only [crop_copy]; omega
  · exact ⟨hpx r c hr hc, by omega, by omega⟩

/-- C3, witness: the 4×4 scenario image, whose bounds are (1, 2, 1, 2). -/
theorem crop_containment_witness :
    crop_bounds scenario_4x4 = some ⟨1, 2, 1, 2⟩ ∧
    ∃ copy, crop scenario_4x4 = some copy ∧
      copy.info_header.height = ((2 : Nat) : Int) - (1 : Nat) + 1 ∧
      copy.info_header.width = ((2 : Nat) : Int) - (1 : Nat) + 1 ∧
      copy.pixel_array.length = 2 - 1 + 1 ∧
      (∀ row ∈ copy.pixel_array, row.length = 2 - 1 + 1) ∧
      ∀ r c, r < 2 - 1 + 1 → c < 2 - 1 + 1 →
        get_pixel copy.pixel_array r c = get_pixel scenario_4x4.pixel_array (r + 1) (c + 1) ∧
        r + 1 < scenario_4x4.info_header.height.toNat ∧
        c + 1 < scenario_4x4.info_header.width.toNat :=
  ⟨by decide, crop_containment scenario_4x4 ⟨1, 2, 1, 2⟩ (by decide)⟩

/-- C8 as stated fails on a one-row image: in `[[0, 1]]` every border pixel other than a
corner differs from that corner, yet the `x_lower_bound` scan returns 1 (not 0), the
`y_upper_bound` scan finds nothing, and `crop` has no defined result. -/
theorem crop_tight_counterexample :
    1 ≤ image_1x2.info_header.height ∧ 1 ≤ image_1x2.info_header.width ∧
    (∀ c, c < image_1x2.info_header.width.toNat → 0 < c →
      get_pixel image_1x2.pixel_array 0 c ≠ get_pixel image_1x2.pixel_array 0 0) ∧
    (∀ r, r < image_1x2.info_header.height.toNat → 0 < r →
      get_pixel image_1x2.pixel_array r 0 ≠ get_pixel image_1x2.pixel_array 0 0) ∧
    (∀ c, c < image_1x2.info_header.width.toNat - 1 →
      get_pixel image_1x2.pixel_array (image_1x2.info_header.height.toNat - 1) c ≠
        get_pixel image_1x2.pixel_array (image_1x2.info_header.height.toNat - 1)
          (image_1x2.info_header.width.toNat - 1)) ∧
    (∀ r, r < image_1x2.info_header.height.toNat - 1 →
      get_pixel image_1x2.pixel_array r (image_1x2.info_header.width.toNat - 1) ≠
        get_pixel image_1x2.pixel_array (image_1x2.info_header.height.toNat - 1)
          (image_1x2.info_header.width.toNat - 1)) ∧
    scan_cols image_1x2.pixel_array 0 (upto 0 2) (upto 0 1) = some 1 ∧
    scan_rows image_1x2.pixel_array 1 (downto 1 0) (upto 1 2) = none ∧
    crop_bounds image_1x2 = none ∧ crop image_1x2 = none := by
  decide

/-- C8, amended (crop idempotence on tight images): when the image has at least two rows and
two columns, and every pixel of row 0 and column 0 other than (0,0) differs from pixel (0,0),
and every pixel of the last row and last column other than the last corner differs from that
corner, the bounds are `0, 0, h-1, w-1` and the result has the source's height and width. -/
theorem crop_tight_image (b : Bitmap)
    (hh : 2 ≤ b.info_header.height) (hw : 2 ≤ b.info_header.width)
    (hrow0 : ∀ c, c < b.info_header.width.toNat → 0 < c →
      get_pixel b.pixel_array 0 c ≠ get_pixel b.pixel_array 0 0)
    (hcol0 : ∀ r, r < b.info_header.height.toNat → 0 < r →
      get_pixel b.pixel_array r 0 ≠ get_pixel b.pixel_array 0 0)
    (hrowN : ∀ c, c < b.info_header.width.toNat - 1 →
      get_pixel b.pixel_array (b.info_header.height.toNat - 1) c ≠
        get_pixel b.pixel_array (b.info_header.height.toNat - 1)
          (b.info_header.width.toNat - 1))
    (hcolN : ∀ r, r < b.info_header.height.toNat - 1 →
      get_pixel b.pixel_array r (b.info_header.width.toNat - 1) ≠
        get_pixel b.pixel_array (b.info_header.height.toNat - 1)
          (b.info_header.width.toNat - 1)) :
    crop_bounds b = some ⟨0, b.info_header.height.toNat - 1, 0, b.info_header.width.toNat - 1⟩ ∧
    ∃ copy, crop b = some copy ∧
      copy.info_header.height = b.info_header.height ∧
      copy.info_header.width = b.info_header.width := by
  have hh2 : 2 ≤ b.info_header.height.toNat := by omega
  have hw2 : 2 ≤ b.info_header.width.toNat := by omega
  have hb : crop_bounds b =
      some ⟨0, b.info_header.height.toNat - 1, 0, b.info_header.width.toNat - 1⟩ := by
    rw [crop_bounds_eq_some]
    dsimp only
    refine ⟨?_, ?_, ?_, ?_⟩
    · rw [scan_rows_upto]
      exact ⟨le_refl _, by omega, ⟨1, by omega, by omega, hrow0 1 (by omega) (by omega)⟩,
        fun j _ hj => absurd hj (by omega)⟩
    · rw [scan_cols_upto]
      exact ⟨le_refl _, by omega, ⟨1, by omega, by omega, hcol0 1 (by omega) (by omega)⟩,
        fun j _ hj => absurd hj (by omega)⟩
    · rw [scan_rows_downto]
      exact ⟨by omega, by omega, ⟨0, le_refl _, by omega, hrowN 0 (by omega)⟩,
        fun j hj1 hj2 => absurd hj2 (by omega)⟩
    · rw [scan_cols_downto]
      exact ⟨by omega, by omega, ⟨0, le_refl _, by omega, hcolN 0 (by omega)⟩,
        fun j hj1 hj2 => absurd hj2 (by omega)⟩
  refine ⟨hb, crop_copy b _, crop_eq_some b _ hb, ?_, ?_⟩
  · simp only [crop_copy]; omega
  · simp only [crop_copy]; omega

/-- C8, witness: the 2×2 image `[[0, 1], [2, 3]]` is tight and keeps its size. -/
theorem crop_tight_image_witness :
    2 ≤ image_2x2.info_header.height ∧ 2 ≤ image_2x2.info_header.width ∧
    crop_bounds image_2x2 = some ⟨0, image_2x2.info_header.height.toNat - 1, 0,
      image_2x2.info_header.width.toNat - 1⟩ ∧
    ∃ copy, crop image_2x2 = some copy ∧
      copy.info_header.height = image_2x2.info_header.height ∧
      copy.info_header.width = image_2x2.info_header.width :=
  ⟨by decide, by decide,
    crop_tight_image image_2x2 (by decide) (by decide) (by decide) (by decide) (by decide)
      (by decide)⟩

/-- C9 as stated fails when the corners differ: in `[[0], [1]]` pixel (1,0) differs from
pixel (0,0), the first two scans give `y_lower = 1`, `x_lower = 0`, and the `y_upper_bound`
scan, which compares with pixel (1,0) itself, finds nothing: the bound stays unassigned. -/
theorem unset_bound_counterexample :
    1 ≤ image_2x1.info_header.height ∧ 1 ≤ image_2x1.info_header.width ∧
    (∃ r c, r < image_2x1.info_header.height.toNat ∧ c < image_2x1.info_header.width.toNat ∧
      get_pixel image_2x1.pixel_array r c ≠ get_pixel image_2x1.pixel_array 0 0) ∧
    scan_rows image_2x1.pixel_array (get_pixel image_2x1.pixel_array 0 0)
      (upto 0 2) (upto 0 1) = some 1 ∧
    scan_cols image_2x1.pixel_array (get_pixel image_2x1.pixel_array 0 0)
      (upto 0 1) (upto 1 2) = some 0 ∧
    scan_rows image_2x1.pixel_array (get_pixel image_2x1.pixel_array 1 0)
      (downto 2 1) (upto 0 1) = none ∧
    crop_bounds image_2x1 = none :=
  ⟨by decide, by decide, ⟨1, 0, by decide, by decide, by decide⟩, by decide, by decide,
    by decide, by decide⟩

/-- C9, amended (unset bounds): when some pixel differs from pixel (0,0), the `y_lower_bound`
and `x_lower_bound` scans each find a pixel; when in addition the opposite corner
pixel (h-1,w-1) has the colour of pixel (0,0), all four scans find one, so no bound is
left unassigned. -/
theorem scans_find_pixel (b : Bitmap)
    (_hh : 1 ≤ b.info_header.height) (_hw : 1 ≤ b.info_header.width)
    (hex : ∃ r c, r < b.info_header.height.toNat ∧ c < b.info_header.width.toNat ∧
      get_pixel b.pixel_array r c ≠ get_pixel b.pixel_array 0 0) :
    (∃ y_lower x_lower,
      scan_rows b.pixel_array (get_pixel b.pixel_array 0 0)
        (upto 0 b.info_header.height.toNat) (upto 0 b.info_header.width.toNat) = some y_lower ∧
      scan_cols b.pixel_array (get_pixel b.pixel_array 0 0)
        (upto 0 b.info_header.width.toNat) (upto y_lower b.info_header.height.toNat)
          = some x_lower) ∧
    (get_pixel b.pixel_array (b.info_header.height.toNat - 1) (b.info_header.width.toNat - 1) =
        get_pixel b.pixel_array 0 0 →
      ∃ bd, crop_bounds b = some bd) := by
  constructor
  · obtain ⟨r0, c0, hr0, hc0, hd0⟩ := hex
    obtain ⟨yl, hyl⟩ := scan_rows_found b.pixel_array (get_pixel b.pixel_array 0 0)
      (upto 0 b.info_header.height.toNat) 0 b.info_header.width.toNat r0 c0
      (mem_upto.2 ⟨Nat.zero_le _, hr0⟩) (Nat.zero_le _) hc0 hd0
    obtain ⟨-, hylh, ⟨x1, -, hx1w, hx1⟩, -⟩ := (scan_rows_upto _ _ _ _ _ _ _).1 hyl
    obtain ⟨xl, hxl⟩ := scan_cols_found b.pixel_array (get_pixel b.pixel_array 0 0)
      (upto 0 b.info_header.width.toNat) yl b.info_header.height.toNat yl x1
      (mem_upto.2 ⟨Nat.zero_le _, hx1w⟩) (le_refl _) hylh hx1
    exact ⟨yl, xl, hyl, hxl⟩
  · intro h11
    exact crop_bounds_of_equal_corners b _ rfl h11 hex

/-- C9, witness: the 3×3 image with a single foreground pixel in the centre. -/
theorem scans_find_pixel_witness :
    (∃ y_lower x_lower,
      scan_rows image_3x3.pixel_array (get_pixel image_3x3.pixel_array 0 0)
        (upto 0 image_3x3.info_header.height.toNat)
        (upto 0 image_3x3.info_header.width.toNat) = some y_lower ∧
      scan_cols image_3x3.pixel_array (get_pixel image_3x3.pixel_array 0 0)
        (upto 0 image_3x3.info_header.width.toNat)
        (upto y_lower image_3x3.info_header.height.toNat) = some x_lower) ∧
    (get_pixel image_3x3.pixel_array (image_3x3.info_header.height.toNat - 1)
        (image_3x3.info_header.width.toNat - 1) = get_pixel image_3x3.pixel_array 0 0 →
      ∃ bd, crop_bounds image_3x3 = some bd) :=
  scans_find_pixel image_3x3 (by decide) (by decide) ⟨1, 1, by decide, by decide, by decide⟩

/-! ## Integers and headers in memory -/

theorem length_le_bytes (n v : Nat) : (le_bytes n v).length = n := by
  induction n generalizing v with
  | zero => rfl
  | succ n ih => simp [le_bytes, ih]

theorem le_bytes_lt (n v : Nat) : ∀ x ∈ le_bytes n v, x < 256 := by
  induction n generalizing v with
  | zero => intro x hx; simp [le_bytes] at hx
  | succ n ih =>
    intro x hx
    simp only [le_bytes, List.mem_cons] at hx
    rcases hx with rfl | hx
    · omega
    · exact ih _ x hx

theorem le_val_le_bytes (n v : Nat) (hv : v < 256 ^ n) : le_val (le_bytes n v) = v := by
  induction n generalizing v with
  | zero =>
    simp only [pow_zero, Nat.lt_one_iff] at hv
    simp [le_bytes, le_val, hv]
  | succ n ih =>
    have hq : v / 256 < 256 ^ n := by
      rw [Nat.div_lt_iff_lt_mul (by norm_num)]
      rw [pow_succ] at hv
      exact hv
    simp only [le_bytes, le_val, ih _ hq]
    omega

theorem le_val_lt (l : List Nat) (hl : ∀ x ∈ l, x < 256) : le_val l < 256 ^ l.length := by
  induction l with
  | nil => simp [le_val]
  | cons a l ih =>
    have ha : a < 256 := hl a (List.mem_cons_self _ _)
    have hr := ih (fun x hx => hl x (List.mem_cons_of_mem _ hx))
    simp only [le_val, List.length_cons, pow_succ]
    omega

theorem le_bytes_le_val (l : List Nat) (hl : ∀ x ∈ l, x < 256) :
    le_bytes l.length (le_val l) = l := by
  induction l with
  | nil => rfl
  | cons a l ih =>
    have ha : a < 256 := hl a (List.mem_cons_self _ _)
    have hr := ih (fun x hx => hl x (List.mem_cons_of_mem _ hx))
    simp only [le_val, List.length_cons, le_bytes]
    have e1 : (a + 256 * le_val l) % 256 = a := by omega
    have e2 : (a + 256 * le_val l) / 256 = le_val l := by omega
    rw [e1, e2, hr]

theorem to_int32_of_int32 (i : Int) (h1 : -2 ^ 31 ≤ i) (h2 : i < 2 ^ 31) :
    to_int32 (of_int32 i) = i := by
  unfold to_int32 of_int32
  split <;> omega

theorem of_int32_to_int32 (u : Nat) (hu : u < 2 ^ 32) : of_int32 (to_int32 u) = u := by
  unfold to_int32 of_int32
  split <;> omega

theorem of_int32_lt (i : Int) : of_int32 i < 2 ^ 32 := by
  unfold of_int32
  omega

theorem length_file_header_bytes (h : Bitmap_file_header) : h.bytes.length = 14 := by
  simp [Bitmap_file_header.bytes, length_le_bytes]

theorem length_info_header_bytes (h : DIB_header) : h.bytes.length = 40 := by
  simp [DIB_header.bytes, length_le_bytes]

theorem le_val_bytes2 (v : Nat) (hv : v < 2 ^ 16) : le_val [v % 256, v / 256 % 256] = v := by
  simp only [le_val]
  omega

theorem le_val_bytes4 (v : Nat) (hv : v < 2 ^ 32) :
    le_val [v % 256, v / 256 % 256, v / 256 / 256 % 256, v / 256 / 256 / 256 % 256] = v := by
  simp only [le_val]
  omega

/-- Reading back the memory image of a file header gives the header. -/
theorem file_header_of_bytes_bytes (h : Bitmap_file_header) (hr : h.in_range) :
    Bitmap_file_header.of_bytes h.bytes = h := by
  obtain ⟨h1, h2, h3, h4, h5⟩ := hr
  simp only [Bitmap_file_header.of_bytes, Bitmap_file_header.bytes, le_bytes,
    List.cons_append, List.nil_append, List.take_succ_cons, List.take_zero,
    List.drop_succ_cons, List.drop_zero,
    le_val_bytes2 _ h1, le_val_bytes4 _ h2, le_val_bytes2 _ h3, le_val_bytes2 _ h4,
    le_val_bytes4 _ h5]

/-- Reading back the memory image of an info header gives the header. -/
theorem info_header_of_bytes_bytes (h : DIB_header) (hr : h.in_range) :
    DIB_header.of_bytes h.bytes = h := by
  obtain ⟨h1, ⟨h2, h2'⟩, ⟨h3, h3'⟩, h4, h5, h6, h7, ⟨h8, h8'⟩, ⟨h9, h9'⟩, h10, h11⟩ := hr
  simp only [DIB_header.of_bytes, DIB_header.bytes, le_bytes,
    List.cons_append, List.nil_append, List.take_succ_cons, List.take_zero,
    List.drop_succ_cons, List.drop_zero,
    le_val_bytes2 _ h4, le_val_bytes2 _ h5, le_val_bytes4 _ h1, le_val_bytes4 _ h6,
    le_val_bytes4 _ h7, le_val_bytes4 _ h10, le_val_bytes4 _ h11,
    le_val_bytes4 _ (of_int32_lt _), to_int32_of_int32 _ h2 h2', to_int32_of_int32 _ h3 h3',
    to_int32_of_int32 _ h8 h8', to_int32_of_int32 _ h9 h9']

theorem le_bytes_le_val_of_length (n : Nat) (l : List Nat) (hlen : l.length = n)
    (hl : is_bytes l) : le_bytes n (le_val l) = l := by
  subst hlen
  exact le_bytes_le_val l hl

theorem le_bytes_int32_le_val (l : List Nat) (hlen : l.length = 4) (hl : is_bytes l) :
    le_bytes 4 (of_int32 (to_int32 (le_val l))) = l := by
  have hlt := le_val_lt l hl
  rw [hlen] at hlt
  rw [of_int32_to_int32 _ (by omega)]
  exact le_bytes_le_val_of_length 4 l hlen hl

theorem length_slice (m : List Nat) (a n : Nat) (h : a + n ≤ m.length) :
    ((m.drop a).take n).length = n := by
  rw [List.length_take, List.length_drop]
  omega

theorem is_bytes_take {m : List Nat} (hm : is_bytes m) (n : Nat) : is_bytes (m.take n) :=
  fun x hx => hm x (List.mem_of_mem_take hx)

theorem is_bytes_drop {m : List Nat} (hm : is_bytes m) (n : Nat) : is_bytes (m.drop n) :=
  fun x hx => hm x (List.mem_of_mem_drop hx)

theorem take_append_slice (m : List Nat) (a n k : Nat) (h : a + n = k) :
    m.take a ++ (m.drop a).take n = m.take k := by
  subst h
  rw [List.take_add]

/-- The memory image of the file header read from 14 bytes is those 14 bytes. -/
theorem file_header_bytes_of_bytes (m : List Nat) (hlen : m.length = 14) (hm : is_bytes m) :
    (Bitmap_file_header.of_bytes m).bytes = m := by
  simp only [Bitmap_file_header.bytes, Bitmap_file_header.of_bytes]
  rw [le_bytes_le_val_of_length 2 (m.take 2) (by rw [List.length_take]; omega)
      (is_bytes_take hm _),
    le_bytes_le_val_of_length 4 _ (length_slice m 2 4 (by omega))
      (is_bytes_take (is_bytes_drop hm _) _),
    le_bytes_le_val_of_length 2 _ (length_slice m 6 2 (by omega))
      (is_bytes_take (is_bytes_drop hm _) _),
    le_bytes_le_val_of_length 2 _ (length_slice m 8 2 (by omega))
      (is_bytes_take (is_bytes_drop hm _) _),
    le_bytes_le_val_of_length 4 _ (length_slice m 10 4 (by omega))
      (is_bytes_take (is_bytes_drop hm _) _),
    take_append_slice m 2 4 6 rfl, take_append_slice m 6 2 8 rfl,
    take_append_slice m 8 2 10 rfl, take_append_slice m 10 4 14 rfl,
    List.take_of_length_le (by omega)]

/-- The memory image of the info header read from 40 bytes is those 40 bytes. -/
theorem info_header_bytes_of_bytes (m : List Nat) (hlen : m.length = 40) (hm : is_bytes m) :
    (DIB_header.of_bytes m).bytes = m := by
  simp only [DIB_header.bytes, DIB_header.of_bytes]
  rw [le_bytes_le_val_of_length 4 (m.take 4) (by rw [List.length_take]; omega)
      (is_bytes_take hm _),
    le_bytes_int32_le_val _ (length_slice m 4 4 (by omega))
      (is_bytes_take (is_bytes_drop hm _) _),
    le_bytes_int32_le_val _ (length_slice m 8 4 (by omega))
      (is_bytes_take (is_bytes_drop hm _) _),
    le_bytes_le_val_of_length 2 _ (length_slice m 12 2 (by omega))
      (is_bytes_take (is_bytes_drop hm _) _),
    le_bytes_le_val_of_length 2 _ (length_slice m 14 2 (by omega))
      (is_bytes_take (is_bytes_drop hm _) _),
    le_bytes_le_val_of_length 4 _ (length_slice m 16 4 (by omega))
      (is_bytes_take (is_bytes_drop hm _) _),
    le_bytes_le_val_of_length 4 _ (length_slice m 20 4 (by omega))
      (is_bytes_take (is_bytes_drop hm _) _),
    le_bytes_int32_le_val _ (length_slice m 24 4 (by omega))
      (is_bytes_take (is_bytes_drop hm _) _),
    le_bytes_int32_le_val _ (length_slice m 28 4 (by omega))
      (is_bytes_take (is_bytes_drop hm _) _),
    le_bytes_le_val_of_length 4 _ (length_slice m 32 4 (by omega))
      (is_bytes_take (is_bytes_drop hm _) _),
    le_bytes_le_val_of_length 4 _ (length_slice m 36 4 (by omega))
      (is_bytes_take (is_bytes_drop hm _) _),
    take_append_slice m 4 4 8 rfl, take_append_slice m 8 4 12 rfl,
    take_append_slice m 12 2 14 rfl, take_append_slice m 14 2 16 rfl,
    take_append_slice m 16 4 20 rfl, take_append_slice m 20 4 24 rfl,
    take_append_slice m 24 4 28 rfl, take_append_slice m 28 4 32 rfl,
    take_append_slice m 32 4 36 rfl, take_append_slice m 36 4 40 rfl,
    List.take_of_length_le (by omega)]

/-! ## `Bitmap::write` in closed form -/

theorem foldl_append_singleton (f : Nat → Nat) (n : Nat) (ofs : List Nat) :
    (List.range n).foldl (fun ofs x => ofs ++ [f x]) ofs = ofs ++ (List.range n).map f := by
  induction n with
  | zero => simp
  | succ n ih =>
    rw [List.range_succ, List.foldl_append, ih]
    simp

theorem write_row_eq (b : Bitmap) (ofs : List Nat) (y : Nat) :
    write_row b ofs y = ofs ++ ((List.range b.info_header.width.toNat).map
      (fun x => get_pixel b.pixel_array y x) ++ padding.take b.num_padding.toNat) := by
  unfold write_row
  rw [foldl_append_singleton, List.append_assoc]

theorem foldl_write_row (b : Bitmap) (n : Nat) (ofs : List Nat) :
    (List.range n).foldl (write_row b) ofs = ofs ++ (List.range n).flatMap (fun y =>
      (List.range b.info_header.width.toNat).map (fun x => get_pixel b.pixel_array y x)
        ++ padding.take b.num_padding.toNat) := by
  induction n with
  | zero => simp
  | succ n ih =>
    rw [List.range_succ, List.foldl_append, ih, List.foldl_cons, List.foldl_nil, write_row_eq,
      List.flatMap_append]
    simp

/-- Row `y` of a grid, read cell by cell. -/
theorem map_get_pixel_row {pa : List (List Nat)} {h w : Nat} (hg : is_grid pa h w) (y : Nat)
    (hy : y < pa.length) :
    (List.range w).map (fun x => get_pixel pa y x) = pa[y] := by
  have hl : (pa[y]).length = w := hg.2 _ (List.getElem_mem _)
  apply List.ext_getElem
  · simp [hl]
  · intro c hc1 hc2
    simp only [List.getElem_map, List.getElem_range, get_pixel]
    rw [List.getD_eq_getElem _ _ hy, List.getD_eq_getElem _ _ hc2]

/-- The rows of a grid, visited by index, are the rows of the grid. -/
theorem flatMap_range_rows {pa : List (List Nat)} {h w : Nat} (hg : is_grid pa h w)
    (tail : List Nat) :
    (List.range h).flatMap (fun y => (List.range w).map (fun x => get_pixel pa y x) ++ tail) =
      pa.flatMap (fun row => row ++ tail) := by
  obtain ⟨hlen, hrows⟩ := hg
  subst hlen
  induction pa using List.reverseRecOn with
  | nil => simp
  | append_singleton pa row ih =>
    have hg1 : is_grid pa pa.length w :=
      ⟨rfl, fun r hr => hrows r (List.mem_append_left _ hr)⟩
    have hg2 : is_grid (pa ++ [row]) (pa ++ [row]).length w := ⟨rfl, hrows⟩
    rw [List.length_append, List.length_singleton, List.range_succ, List.flatMap_append,
      List.flatMap_append]
    congr 1
    · rw [← ih hg1.2]
      apply List.flatMap_congr
      intro y hy
      rw [List.mem_range] at hy
      rw [map_get_pixel_row hg1 y hy,
        map_get_pixel_row hg2 y (by rw [List.length_append]; omega),
        List.getElem_append_left hy]
    · simp only [List.flatMap_cons, List.flatMap_nil, List.append_nil]
      rw [map_get_pixel_row hg2 pa.length (by simp)]
      simp

theorem padding_take (n : Nat) (hn : n ≤ 3) : padding.take n = List.replicate n 0 := by
  interval_cases n <;> rfl

/-- The padding computed for a non-negative width, as a natural number. -/
theorem row_padding_nonneg_width (w : Int) (hw : 0 ≤ w) :
    row_padding w = (4 - w % 4) % 4 ∧ 0 ≤ row_padding w ∧ row_padding w ≤ 3 := by
  unfold row_padding
  rw [Int.tmod_eq_emod hw (by norm_num), Int.tmod_eq_emod (by omega) (by norm_num)]
  omega

/-- The bytes `Bitmap::write` emits when the grid matches the header, the colour table has
1024 bytes and `num_padding` is between 0 and 3. -/
theorem write_eq_of (b : Bitmap) (hct : b.color_table.length = 1024)
    (hg : is_grid b.pixel_array b.info_header.height.toNat b.info_header.width.toNat)
    (hp3 : b.num_padding.toNat ≤ 3) :
    write b = b.file_header.bytes ++ b.info_header.bytes ++ b.color_table ++
      b.pixel_array.flatMap (fun row => row ++ List.replicate b.num_padding.toNat 0) := by
  unfold write
  simp only [foldl_write_row]
  rw [flatMap_range_rows hg, padding_take _ hp3, List.take_of_length_le (by rw [hct]; decide)]

/-- The bytes `Bitmap::write` emits for an image that satisfies the data-model invariants. -/
theorem write_eq (b : Bitmap) (hv : b.valid) :
    write b = b.file_header.bytes ++ b.info_header.bytes ++ b.color_table ++
      b.pixel_array.flatMap (fun row => row ++ List.replicate b.num_padding.toNat 0) := by
  obtain ⟨-, -, -, hw, hct, hg, hpad⟩ := hv
  exact write_eq_of b hct hg (by omega)

theorem length_flatMap_rows {pa : List (List Nat)} {h w : Nat} (hg : is_grid pa h w)
    (tail : List Nat) :
    (pa.flatMap (fun row => row ++ tail)).length = h * (w + tail.length) := by
  obtain ⟨hlen, hrows⟩ := hg
  subst hlen
  induction pa with
  | nil => simp
  | cons row pa ih =>
    rw [List.flatMap_cons, List.length_append, List.length_append, List.length_cons,
      ih (fun r hr => hrows r (List.mem_cons_of_mem _ hr)), hrows row (List.mem_cons_self _ _)]
    ring

/-- Number of bytes `Bitmap::write` emits. -/
theorem length_write_of (b : Bitmap) (hct : b.color_table.length = 1024)
    (hg : is_grid b.pixel_array b.info_header.height.toNat b.info_header.width.toNat)
    (hp3 : b.num_padding.toNat ≤ 3) :
    (write b).length = 1078 +
      (b.info_header.width.toNat + b.num_padding.toNat) * b.info_header.height.toNat := by
  rw [write_eq_of b hct hg hp3, List.length_append, List.length_append, List.length_append,
    length_file_header_bytes, length_info_header_bytes, hct, length_flatMap_rows hg,
    List.length_replicate]
  ring

/-- The padding expression yields 0, 1, 2 or 3 for every `int`, negative ones included. -/
theorem row_padding_range (w : Int) : 0 ≤ row_padding w ∧ row_padding w ≤ 3 := by
  unfold row_padding
  cases w with
  | ofNat n =>
    have h1 : (Int.ofNat n).tmod 4 = (Int.ofNat n) % 4 :=
      Int.tmod_eq_emod (Int.ofNat_nonneg n) (by norm_num)
    rw [h1, Int.tmod_eq_emod (by omega) (by norm_num)]
    omega
  | negSucc n =>
    have h1 : (Int.negSucc n).tmod 4 = -(((n + 1) % 4 : Nat) : Int) := rfl
    rw [h1, Int.tmod_eq_emod (by omega) (by norm_num)]
    omega

/-- Byte `k` of encoded row `r`: a pixel for `k < w`, a zero padding byte after that. -/
theorem encoded_rows_getElem {pa : List (List Nat)} {h w : Nat} (hg : is_grid pa h w)
    (pad r k : Nat) (hr : r < h) (hk : k < w + pad) :
    (pa.flatMap (fun row => row ++ List.replicate pad 0))[r * (w + pad) + k]? =
      some (if k < w then get_pixel pa r k else 0) := by
  obtain ⟨hlen, hrows⟩ := hg
  subst hlen
  induction pa generalizing r with
  | nil => simp at hr
  | cons row pa ih =>
    have hrow : row.length = w := hrows row (List.mem_cons_self _ _)
    rw [List.flatMap_cons]
    cases r with
    | zero =>
      rw [Nat.zero_mul, Nat.zero_add,
        List.getElem?_append_left (by rw [List.length_append, List.length_replicate]; omega)]
      by_cases hkw : k < w
      · rw [List.getElem?_append_left (by omega)]
        simp only [hkw, if_true, get_pixel, List.getD_cons_zero]
        rw [List.getD_eq_getElem _ _ (by omega), List.getElem?_eq_getElem (by omega)]
      · rw [List.getElem?_append_right (by omega)]
        simp only [hkw, if_false]
        rw [List.getElem?_eq_getElem (by rw [List.length_replicate]; omega)]
        simp
    | succ r =>
      have hidx : (r + 1) * (w + pad) + k - (row ++ List.replicate pad 0).length =
          r * (w + pad) + k := by
        rw [List.length_append, List.length_replicate, hrow, Nat.add_mul, Nat.one_mul]
        omega
      rw [List.getElem?_append_right (by
        rw [List.length_append, List.length_replicate, hrow, Nat.add_mul, Nat.one_mul]
        omega), hidx, ih r (fun x hx => hrows x (List.mem_cons_of_mem _ hx)) (by simpa using hr)]
      simp [get_pixel]

/-- An image built by `image_of` from a grid of the stated size satisfies the invariants. -/
theorem image_of_valid (h w : Nat) (rows : List (List Nat)) (hg : is_grid rows h w) :
    (image_of h w rows).valid := by
  refine ⟨rfl, rfl, ?_, ?_, ?_, ?_, ?_⟩
  · simp [image_of]
  · simp [image_of]
  · exact List.length_replicate 1024 0
  · simpa [image_of] using hg
  · exact (row_padding_nonneg_width _ (by simp [image_of])).1

/-- The pixel data part of the emitted file. -/
theorem drop_write (b : Bitmap) (hv : b.valid) :
    (write b).drop 1078 =
      b.pixel_array.flatMap (fun row => row ++ List.replicate b.num_padding.toNat 0) := by
  rw [write_eq b hv]
  apply List.drop_left'
  rw [List.length_append, List.length_append, length_file_header_bytes,
    length_info_header_bytes, hv.2.2.2.2.1]

/-! ## Claims about `Bitmap::write` and the padding -/

/-- C5 (encoded layout): for an image satisfying the data-model invariants, with height `h`,
width `w` and `pad = (4 - w mod 4) mod 4`, `write` emits exactly `1078 + (w + pad) * h`
bytes: the 14 + 40 header bytes, the 1024 colour-table bytes, then each row's `w` pixels
in column order immediately followed by `pad` zero bytes. -/
theorem write_layout (b : Bitmap) (hv : b.valid) :
    (write b).length = 1078 + (b.info_header.width.toNat +
        ((4 - b.info_header.width % 4) % 4).toNat) * b.info_header.height.toNat ∧
    write b = b.file_header.bytes ++ b.info_header.bytes ++ b.color_table ++
      b.pixel_array.flatMap (fun row =>
        row ++ List.replicate ((4 - b.info_header.width % 4) % 4).toNat 0) ∧
    b.file_header.bytes.length + b.info_header.bytes.length = 54 ∧
    b.color_table.length = 1024 ∧
    b.pixel_array.length = b.info_header.height.toNat ∧
    (∀ row ∈ b.pixel_array, row.length = b.info_header.width.toNat) ∧
    (∀ r c, r < b.info_header.height.toNat → c < b.info_header.width.toNat →
      (write b)[1078 + r * (b.info_header.width.toNat +
        ((4 - b.info_header.width % 4) % 4).toNat) + c]? = some (get_pixel b.pixel_array r c)) ∧
    (∀ r k, r < b.info_header.height.toNat → k < ((4 - b.info_header.width % 4) % 4).toNat →
      (write b)[1078 + r * (b.info_header.width.toNat +
        ((4 - b.info_header.width % 4) % 4).toNat) + b.info_header.width.toNat + k]? =
          some 0) := by
  have hw := write_eq b hv
  obtain ⟨-, -, -, -, hct, hg, hpad⟩ := hv
  rw [hpad] at hw
  have hlen := length_flatMap_rows hg
    (List.replicate ((4 - b.info_header.width % 4) % 4).toNat 0)
  rw [List.length_replicate] at hlen
  have hhead : (b.file_header.bytes ++ b.info_header.bytes ++ b.color_table).length = 1078 := by
    rw [List.length_append, List.length_append, length_file_header_bytes,
      length_info_header_bytes, hct]
  refine ⟨?_, hw, ?_, hct, hg.1, hg.2, ?_, ?_⟩
  · rw [hw, List.length_append, hhead, hlen]
    ring
  · rw [length_file_header_bytes, length_info_header_bytes]
  · intro r c hr hc
    rw [hw, List.getElem?_append_right (by rw [hhead]; omega), hhead]
    have hidx : 1078 + r * (b.info_header.width.toNat +
        ((4 - b.info_header.width % 4) % 4).toNat) + c - 1078 =
        r * (b.info_header.width.toNat + ((4 - b.info_header.width % 4) % 4).toNat) + c := by
      omega
    rw [hidx, encoded_rows_getElem hg _ r c hr (by omega)]
    simp [hc]
  · intro r k hr hk
    rw [hw, List.getElem?_append_right (by rw [hhead]; omega), hhead]
    have hidx : 1078 + r * (b.info_header.width.toNat +
        ((4 - b.info_header.width % 4) % 4).toNat) + b.info_header.width.toNat + k - 1078 =
        r * (b.info_header.width.toNat + ((4 - b.info_header.width % 4) % 4).toNat) +
          (b.info_header.width.toNat + k) := by
      omega
    rw [hidx, encoded_rows_getElem hg _ r _ hr (by omega)]
    simp

/-- C5, witness: two rows of five pixels of colour 7; each row is followed by exactly three
zero bytes. -/
theorem write_layout_witness :
    image_2x5.valid ∧ (write image_2x5).drop 1078 =
      [7, 7, 7, 7, 7, 0, 0, 0, 7, 7, 7, 7, 7, 0, 0, 0] ∧
    (write image_2x5).length = 1078 + (image_2x5.info_header.width.toNat +
        ((4 - image_2x5.info_header.width % 4) % 4).toNat) *
          image_2x5.info_header.height.toNat :=
  ⟨image_of_valid 2 5 _ (by decide),
    (drop_write image_2x5 (image_of_valid 2 5 _ (by decide))).trans (by decide),
    (write_layout image_2x5 (image_of_valid 2 5 _ (by decide))).1⟩

/-- C6 (padding correctness): for a width `w ≥ 0` of type `int32_t`, the value of
`(4 - w % 4) % 4` as `Bitmap::read` and `Bitmap::crop` compute it is the mathematical
`(4 - w mod 4) mod 4`, it is one of 0, 1, 2, 3, and `w` plus it is a multiple of 4. -/
theorem row_padding_correct (w : Int) (h0 : 0 ≤ w) (_h1 : w < 2 ^ 31) :
    row_padding w = (4 - w % 4) % 4 ∧
    (row_padding w = 0 ∨ row_padding w = 1 ∨ row_padding w = 2 ∨ row_padding w = 3) ∧
    (w + row_padding w) % 4 = 0 := by
  obtain ⟨h1, h2, h3⟩ := row_padding_nonneg_width w h0
  refine ⟨h1, by omega, by omega⟩

/-- C6, witness: width 5 gives padding 3 and a row of 8 bytes. -/
theorem row_padding_correct_witness :
    row_padding 5 = 3 ∧
    (row_padding 5 = (4 - 5 % 4) % 4 ∧
      (row_padding 5 = 0 ∨ row_padding 5 = 1 ∨ row_padding 5 = 2 ∨ row_padding 5 = 3) ∧
      (5 + row_padding 5) % 4 = 0) :=
  ⟨by decide, row_padding_correct 5 (by decide) (by decide)⟩

theorem overlay_full (got mem : List Nat) (h : mem.length ≤ got.length) :
    overlay got mem = got := by
  unfold overlay
  rw [List.drop_eq_nil_of_le h, List.append_nil]

theorem getD_drop (l : List Nat) (n i : Nat) : (l.drop n).getD i 0 = l.getD (n + i) 0 := by
  simp only [List.getD_eq_getElem?_getD, List.getElem?_drop]

/-- The inner loop of `Bitmap::read`: `k` pixels of row `y` are read from the stream. -/
theorem read_pixels (y h w : Nat) (hy : y < h) (k : Nat) (hk : k ≤ w) (ifs : List Nat)
    (hlen : k ≤ ifs.length) (pa : List (List Nat)) (hg : is_grid pa h w) :
    ∃ pa', (List.range k).foldl (read_pixel y) (some ⟨ifs, pa⟩) = some ⟨ifs.drop k, pa'⟩ ∧
      is_grid pa' h w ∧
      ∀ r c, get_pixel pa' r c = if r = y ∧ c < k then ifs.getD c 0 else get_pixel pa r c := by
  induction k with
  | zero => exact ⟨pa, rfl, hg, fun r c => by simp⟩
  | succ k ih =>
    obtain ⟨pa1, hfold, hg1, hpx⟩ := ih (by omega) (by omega)
    have hk1 : k < ifs.length := by omega
    refine ⟨set_pixel pa1 y k (ifs[k]), ?_, is_grid_set_pixel hg1 _ _ _, fun r c => ?_⟩
    · rw [List.range_succ, List.foldl_append, hfold, List.foldl_cons, List.foldl_nil]
      simp only [read_pixel]
      rw [List.drop_eq_getElem_cons hk1]
    · rw [get_pixel_set_pixel, hpx, hg1.1, is_grid_row_length hg1 hy]
      by_cases hr : r = y
      · by_cases hc : c = k
        · have hlt : k < w := by omega
          subst hc
          rw [List.getD_eq_getElem _ _ hk1]
          simp [hr, hy, hlt]
        · by_cases hc2 : c < k
          · have hc3 : c < k + 1 := by omega
            simp [hr, hc, hc2, hc3]
          · have hc3 : ¬ c < k + 1 := by omega
            simp [hr, hc, hc2, hc3]
      · simp [hr]

/-- One iteration of the outer loop of `Bitmap::read`. -/
theorem read_row_eq (y h w pad : Nat) (hy : y < h) (ifs : List Nat) (hlen : w ≤ ifs.length)
    (pa : List (List Nat)) (hg : is_grid pa h w) :
    ∃ pa', read_row w pad (some ⟨ifs, pa⟩) y = some ⟨ifs.drop (w + pad), pa'⟩ ∧
      is_grid pa' h w ∧
      ∀ r c, get_pixel pa' r c = if r = y ∧ c < w then ifs.getD c 0 else get_pixel pa r c := by
  obtain ⟨pa1, hfold, hg1, hpx⟩ := read_pixels y h w hy w (le_refl _) ifs hlen pa hg
  refine ⟨pa1, ?_, hg1, hpx⟩
  unfold read_row
  rw [hfold]
  simp only [List.drop_drop]

/-- The outer loop of `Bitmap::read`: `k` rows are read, each followed by `pad` skipped
bytes (the last skip may run into the end of the stream). -/
theorem read_rows (h w pad k : Nat) (hk : k ≤ h) (ifs : List Nat)
    (hlen : k * (w + pad) ≤ ifs.length + pad) (pa : List (List Nat)) (hg : is_grid pa h w) :
    ∃ pa', (List.range k).foldl (read_row w pad) (some ⟨ifs, pa⟩) =
        some ⟨ifs.drop (k * (w + pad)), pa'⟩ ∧
      is_grid pa' h w ∧
      ∀ r c, get_pixel pa' r c =
        if r < k ∧ c < w then ifs.getD (r * (w + pad) + c) 0 else get_pixel pa r c := by
  induction k with
  | zero => exact ⟨pa, by simp, hg, fun r c => by simp⟩
  | succ k ih =>
    have hmul : (k + 1) * (w + pad) = k * (w + pad) + (w + pad) := Nat.succ_mul _ _
    obtain ⟨pa1, hfold, hg1, hpx⟩ := ih (by omega) (by omega)
    obtain ⟨pa2, hrow, hg2, hpx2⟩ := read_row_eq k h w pad (by omega)
      (ifs.drop (k * (w + pad))) (by rw [List.length_drop]; omega) pa1 hg1
    refine ⟨pa2, ?_, hg2, fun r c => ?_⟩
    · rw [List.range_succ, List.foldl_append, hfold, List.foldl_cons, List.foldl_nil, hrow,
        List.drop_drop, hmul]
    · rw [hpx2, hpx, getD_drop]
      by_cases hr : r = k
      · by_cases hc : c < w
        · simp [hr, hc]
        · simp [hr, hc]
      · by_cases hr2 : r < k
        · have hr3 : r < k + 1 := by omega
          simp [hr, hr2, hr3]
        · have hr3 : ¬ r < k + 1 := by omega
          simp [hr, hr2, hr3]

theorem length_default_file_header : ({} : Bitmap_file_header).bytes.length = 14 :=
  length_file_header_bytes _

theorem length_default_info_header : ({} : DIB_header).bytes.length = 40 :=
  length_info_header_bytes _

/-- On a stream that holds the headers, the colour table and every pixel, `Bitmap::read`
returns the decoded headers, the 1024 bytes after them, and the grid of the pixel bytes. -/
theorem read_ok (ifs : List Nat) (hlen : 1078 ≤ ifs.length)
    (htype : (Bitmap_file_header.of_bytes (ifs.take 14)).type = 0x4D42)
    (hbits : (DIB_header.of_bytes ((ifs.drop 14).take 40)).bit_count = 8)
    (hh : 0 ≤ (DIB_header.of_bytes ((ifs.drop 14).take 40)).height)
    (hw : 0 ≤ (DIB_header.of_bytes ((ifs.drop 14).take 40)).width)
    (hdata : (DIB_header.of_bytes ((ifs.drop 14).take 40)).height.toNat *
        ((DIB_header.of_bytes ((ifs.drop 14).take 40)).width.toNat +
          (row_padding (DIB_header.of_bytes ((ifs.drop 14).take 40)).width).toNat) ≤
        ifs.length - 1078 +
          (row_padding (DIB_header.of_bytes ((ifs.drop 14).take 40)).width).toNat) :
    ∃ pa, read ifs = .ok ⟨row_padding (DIB_header.of_bytes ((ifs.drop 14).take 40)).width,
        Bitmap_file_header.of_bytes (ifs.take 14),
        DIB_header.of_bytes ((ifs.drop 14).take 40), (ifs.drop 54).take 1024, pa⟩ ∧
      is_grid pa (DIB_header.of_bytes ((ifs.drop 14).take 40)).height.toNat
        (DIB_header.of_bytes ((ifs.drop 14).take 40)).width.toNat ∧
      ∀ r c, r < (DIB_header.of_bytes ((ifs.drop 14).take 40)).height.toNat →
        c < (DIB_header.of_bytes ((ifs.drop 14).take 40)).width.toNat →
        get_pixel pa r c = ifs.getD (1078 + r *
          ((DIB_header.of_bytes ((ifs.drop 14).take 40)).width.toNat +
            (row_padding (DIB_header.of_bytes ((ifs.drop 14).take 40)).width).toNat) + c) 0 := by
  have o1 : overlay (ifs.take 14) ({} : Bitmap_file_header).bytes = ifs.take 14 :=
    overlay_full _ _ (by rw [length_default_file_header, List.length_take]; omega)
  have o2 : overlay ((ifs.drop 14).take 40) ({} : DIB_header).bytes = (ifs.drop 14).take 40 :=
    overlay_full _ _ (by
      rw [length_default_info_header, List.length_take, List.length_drop]; omega)
  have hct : ¬ ((ifs.drop 54).take 1024).length < 1024 := by
    rw [List.length_take, List.length_drop]; omega
  obtain ⟨pa, hfold, hg, hpx⟩ := read_rows
    (DIB_header.of_bytes ((ifs.drop 14).take 40)).height.toNat
    (DIB_header.of_bytes ((ifs.drop 14).take 40)).width.toNat
    (row_padding (DIB_header.of_bytes ((ifs.drop 14).take 40)).width).toNat
    (DIB_header.of_bytes ((ifs.drop 14).take 40)).height.toNat (le_refl _)
    (ifs.drop 1078) (by rw [List.length_drop]; exact hdata) _ (is_grid_replicate _ _)
  refine ⟨pa, ?_, hg, fun r c hr hc => ?_⟩
  · unfold read
    simp only [o1, o2, List.drop_drop, num_colors, Nat.reduceMul, Nat.reduceAdd]
    rw [if_neg (not_not.2 htype), if_neg (not_not.2 hbits), if_neg (by omega), if_neg hct,
      hfold]
  · rw [hpx, getD_drop]
    simp [hr, hc, Nat.add_assoc]

/-! ## Round trips -/

/-- The four parts of the file emitted for an image satisfying the invariants. -/
theorem write_slices (b : Bitmap) (hv : b.valid) :
    (write b).take 14 = b.file_header.bytes ∧
    ((write b).drop 14).take 40 = b.info_header.bytes ∧
    ((write b).drop 54).take 1024 = b.color_table ∧
    (write b).drop 1078 =
      b.pixel_array.flatMap (fun row => row ++ List.replicate b.num_padding.toNat 0) := by
  have hct : b.color_table.length = 1024 := hv.2.2.2.2.1
  have hf := length_file_header_bytes b.file_header
  have hi := length_info_header_bytes b.info_header
  have d14 : (write b).drop 14 = b.info_header.bytes ++ (b.color_table ++
      b.pixel_array.flatMap (fun row => row ++ List.replicate b.num_padding.toNat 0)) := by
    rw [write_eq b hv, List.append_assoc, List.append_assoc]
    exact List.drop_left' hf
  have d54 : (write b).drop 54 = b.color_table ++
      b.pixel_array.flatMap (fun row => row ++ List.replicate b.num_padding.toNat 0) := by
    have : (write b).drop 54 = ((write b).drop 14).drop 40 := by rw [List.drop_drop]
    rw [this, d14]
    exact List.drop_left' hi
  refine ⟨?_, ?_, ?_, drop_write b hv⟩
  · rw [write_eq b hv, List.append_assoc, List.append_assoc]
    exact List.take_left' hf
  · rw [d14]
    exact List.take_left' hi
  · rw [d54]
    exact List.take_left' hct

/-- An image built by `image_of` holds values of the C types when its pixels are bytes and
its dimensions and size fit their fields. -/
theorem image_of_in_range (h w : Nat) (rows : List (List Nat))
    (hrows : ∀ row ∈ rows, is_bytes row) (hh : h < 2 ^ 31) (hw : w < 2 ^ 31)
    (hsz : 1078 + (w + (row_padding w).toNat) * h < 2 ^ 32) : (image_of h w rows).in_range := by
  refine ⟨⟨?_, hsz, ?_, ?_, ?_⟩, ⟨?_, ⟨?_, ?_⟩, ⟨?_, ?_⟩, ?_, ?_, ?_, ?_, ⟨?_, ?_⟩, ⟨?_, ?_⟩,
    ?_, ?_⟩, ?_, hrows⟩
  all_goals first
    | (intro x hx
       have := (List.mem_replicate.1 hx).2
       omega)
    | (simp only [image_of]; omega)

/-- C1 (round trip): for every image that satisfies the data-model invariants (magic `BM`,
8 bits per pixel, height and width at least 0, a 1024-byte colour table, a grid of `height`
rows of `width` bytes, `num_padding = (4 - width mod 4) mod 4`) and whose members hold
values of their C types, `read` applied to the bytes `write` produces succeeds and returns
the same image: same file header, info header, colour table, pixel grid and `num_padding`. -/
theorem read_write_roundtrip (b : Bitmap) (hv : b.valid) (hr : b.in_range) :
    read (write b) = .ok b := by
  obtain ⟨s1, s2, s3, s4⟩ := write_slices b hv
  have hfh := file_header_of_bytes_bytes b.file_header hr.1
  have hih := info_header_of_bytes_bytes b.info_header hr.2.1
  obtain ⟨htype, hbits, hh, hw, hct, hg, hpad⟩ := hv
  obtain ⟨p1, p2, p3⟩ := row_padding_nonneg_width _ hw
  have hnp : row_padding b.info_header.width = b.num_padding := by rw [p1, hpad]
  have hlen : (write b).length = 1078 +
      (b.info_header.width.toNat + b.num_padding.toNat) * b.info_header.height.toNat :=
    length_write_of b hct hg (by omega)
  obtain ⟨pa, hread, hg2, hpx⟩ := read_ok (write b) (by omega)
    (by rw [s1, hfh]; exact htype) (by rw [s2, hih]; exact hbits)
    (by rw [s2, hih]; exact hh) (by rw [s2, hih]; exact hw)
    (by
      rw [s2, hih, hnp, hlen, Nat.mul_comm]
      omega)
  rw [s1, s2, s3, hfh, hih, hnp] at hread
  rw [s2, hih] at hg2
  rw [s2, hih, hnp] at hpx
  have hpa : pa = b.pixel_array := by
    apply grid_ext hg2 hg
    intro r c hr hc
    rw [hpx r c hr hc]
    have hidx : 1078 + r * (b.info_header.width.toNat + b.num_padding.toNat) + c =
        1078 + (r * (b.info_header.width.toNat + b.num_padding.toNat) + c) := by omega
    rw [hidx, ← getD_drop, s4, List.getD_eq_getElem?_getD,
      encoded_rows_getElem hg _ r c hr (by omega)]
    simp [hc]
  rw [hread, hpa]

/-- C1, witness: the 4×4 scenario image is a valid image and survives the round trip. -/
theorem read_write_roundtrip_witness :
    scenario_4x4.valid ∧ scenario_4x4.in_range ∧ read (write scenario_4x4) = .ok scenario_4x4 :=
  ⟨image_of_valid 4 4 _ (by decide),
    image_of_in_range 4 4 _ (by decide) (by decide) (by decide) (by decide),
    read_write_roundtrip scenario_4x4 (image_of_valid 4 4 _ (by decide))
      (image_of_in_range 4 4 _ (by decide) (by decide) (by decide) (by decide))⟩

/-! ## Header fields of a stream, short streams included -/

theorem getD_take (l : List Nat) (n i : Nat) (h : i < n) : (l.take n).getD i 0 = l.getD i 0 := by
  simp only [List.getD_eq_getElem?_getD, List.getElem?_take, h, if_true]

theorem getD_of_length_le (l : List Nat) (i : Nat) (h : l.length ≤ i) : l.getD i 0 = 0 := by
  rw [List.getD_eq_default _ _ h]

theorem le_val_take2 (l : List Nat) : le_val (l.take 2) = l.getD 0 0 + 256 * l.getD 1 0 := by
  match l with
  | [] => rfl
  | [a] => simp [le_val]
  | a :: b :: rest => simp [le_val]

theorem le_val_slice2 (l : List Nat) (k : Nat) :
    le_val ((l.drop k).take 2) = l.getD k 0 + 256 * l.getD (k + 1) 0 := by
  rw [le_val_take2, getD_drop, getD_drop, Nat.add_zero]

/-- A byte of an object after a read stored `got` at its start. -/
theorem overlay_getD (got mem : List Nat) (i : Nat) :
    (overlay got mem).getD i 0 = if i < got.length then got.getD i 0 else mem.getD i 0 := by
  unfold overlay
  by_cases hi : i < got.length
  · rw [if_pos hi, List.getD_append _ _ _ _ hi]
  · rw [if_neg hi, List.getD_append_right _ _ _ _ (by omega), getD_drop]
    congr 1
    omega

/-- The `type` field after the first `ifs.read`: bytes the stream does not have keep the
default member initialiser `0x4D42`. -/
theorem read_type_eq (ifs : List Nat) :
    (Bitmap_file_header.of_bytes (overlay (ifs.take 14) ({} : Bitmap_file_header).bytes)).type =
      (if 0 < ifs.length then ifs.getD 0 0 else 0x42) +
        256 * (if 1 < ifs.length then ifs.getD 1 0 else 0x4D) := by
  have d0 : ({} : Bitmap_file_header).bytes.getD 0 0 = 0x42 := by decide
  have d1 : ({} : Bitmap_file_header).bytes.getD 1 0 = 0x4D := by decide
  show le_val ((overlay (ifs.take 14) ({} : Bitmap_file_header).bytes).take 2) = _
  rw [le_val_take2, overlay_getD, overlay_getD, d0, d1, getD_take _ _ _ (by omega),
    getD_take _ _ _ (by omega), List.length_take]
  have e0 : (0 < min 14 ifs.length) = (0 < ifs.length) := by
    apply propext; omega
  have e1 : (1 < min 14 ifs.length) = (1 < ifs.length) := by
    apply propext; omega
  simp only [e0, e1]

/-- The `bit_count` field after the second `ifs.read` is the 16-bit value at offset 28 of
the stream: bytes the stream does not have keep the default member initialiser 0. -/
theorem read_bit_count_eq (ifs : List Nat) :
    (DIB_header.of_bytes (overlay ((ifs.drop 14).take 40) ({} : DIB_header).bytes)).bit_count =
      stream_bit_count ifs := by
  have d14 : ({} : DIB_header).bytes.getD 14 0 = 0 := by decide
  have d15 : ({} : DIB_header).bytes.getD 15 0 = 0 := by decide
  show le_val (((overlay ((ifs.drop 14).take 40) ({} : DIB_header).bytes).drop 14).take 2) = _
  unfold stream_bit_count
  rw [le_val_slice2, le_val_slice2, overlay_getD, overlay_getD, d14, d15,
    getD_take _ _ _ (by omega), getD_take _ _ _ (by omega), getD_drop, getD_drop]
  have key : ∀ i, i < 40 → (if i < ((ifs.drop 14).take 40).length then ifs.getD (14 + i) 0
      else 0) = ifs.getD (14 + i) 0 := by
    intro i hi
    by_cases h : i < ((ifs.drop 14).take 40).length
    · rw [if_pos h]
    · rw [if_neg h]
      rw [List.length_take, List.length_drop] at h
      exact (getD_of_length_le _ _ (by omega)).symm
  rw [key 14 (by omega), key (14 + 1) (by omega)]

/-- The first exit of `Bitmap::read`. -/
theorem read_of_bad_type (ifs : List Nat)
    (h : (Bitmap_file_header.of_bytes
      (overlay (ifs.take 14) ({} : Bitmap_file_header).bytes)).type ≠ 0x4D42) :
    read ifs = .error .unrecognized_format := by
  unfold read
  simp only []
  rw [if_pos h]

/-- The second exit of `Bitmap::read`, reached only when the first test passed. -/
theorem read_of_bad_bit_count (ifs : List Nat)
    (h1 : (Bitmap_file_header.of_bytes
      (overlay (ifs.take 14) ({} : Bitmap_file_header).bytes)).type = 0x4D42)
    (h2 : stream_bit_count ifs ≠ 8) :
    read ifs = .error .incorrect_bit_count := by
  unfold read
  simp only []
  rw [if_neg (not_not.2 h1), List.drop_drop, if_pos (by rw [read_bit_count_eq]; exact h2)]

/-! ## Claims about `Bitmap::read` -/

/-- C4 (format rejection): for every byte stream, `read` ends in a format error and
returns no image when the first two bytes are not `B`, `M`; when the stream has its first
two bytes and their little-endian value is not `0x4D42` the error is the one of the magic
test, whatever the bit depth (that test comes first); and when the magic is `BM` but the
16-bit field at offset 28 is not 8 the error is the one of the bit-depth test. -/
theorem read_format_rejection (ifs : List Nat) (hb : is_bytes ifs) :
    (ifs.take 2 ≠ [0x42, 0x4D] → is_format_error (read ifs)) ∧
    (2 ≤ ifs.length → (stream_type ifs ≠ 0x4D42 ↔ ifs.take 2 ≠ [0x42, 0x4D])) ∧
    (2 ≤ ifs.length → stream_type ifs ≠ 0x4D42 → read ifs = .error .unrecognized_format) ∧
    (ifs.take 2 = [0x42, 0x4D] → stream_bit_count ifs ≠ 8 →
      read ifs = .error .incorrect_bit_count) := by
  refine ⟨?_, ?_, ?_, ?_⟩
  · intro hne
    by_cases ht : (Bitmap_file_header.of_bytes
        (overlay (ifs.take 14) ({} : Bitmap_file_header).bytes)).type = 0x4D42
    · right
      apply read_of_bad_bit_count ifs ht
      match ifs, hb, hne, ht with
      | [], _, _, _ => decide
      | [a], _, _, _ => simp [stream_bit_count, le_val]
      | a :: c :: rest, hb, hne, ht =>
        exfalso
        rw [read_type_eq] at ht
        have ha : a < 256 := hb a (by simp)
        have hc : c < 256 := hb c (by simp)
        simp only [List.length_cons, List.getD_cons_zero, List.getD_cons_succ] at ht
        apply hne
        have h1 : a = 0x42 := by
          simp at ht
          omega
        have h2 : c = 0x4D := by
          simp at ht
          omega
        simp [h1, h2]
    · left
      exact read_of_bad_type ifs ht
  · intro hlen
    match ifs, hb, hlen with
    | a :: c :: rest, hb, _ =>
      have ha : a < 256 := hb a (by simp)
      have hc : c < 256 := hb c (by simp)
      simp only [stream_type, List.take_succ_cons, List.take_zero, le_val, ne_eq,
        List.cons.injEq, and_true]
      constructor
      · intro h1 h2
        apply h1
        omega
      · intro h1 h2
        apply h1
        omega
  · intro hlen hne
    apply read_of_bad_type
    rw [read_type_eq]
    rw [stream_type, le_val_take2] at hne
    rw [if_pos (by omega), if_pos (by omega)]
    exact hne
  · intro hm hbits
    apply read_of_bad_bit_count ifs _ hbits
    rw [read_type_eq]
    match ifs, hm with
    | a :: c :: rest, hm =>
      simp only [List.take_succ_cons, List.take_zero, List.cons.injEq, and_true] at hm
      simp [hm.1, hm.2]

/-- C4, witness: the first bytes of a GIF file are rejected by the magic test. -/
theorem read_format_rejection_witness :
    is_bytes gif_stream ∧ gif_stream.take 2 ≠ [0x42, 0x4D] ∧
    read gif_stream = .error .unrecognized_format :=
  ⟨by decide, by decide,
    (read_format_rejection gif_stream (by decide)).2.2.1 (by decide) (by decide)⟩

theorem slice_slice (l : List Nat) (a n k j : Nat) (h : k + j ≤ n) :
    (((l.drop a).take n).drop k).take j = (l.drop (a + k)).take j := by
  rw [List.drop_take, List.take_take, List.drop_drop, Nat.min_eq_left (by omega)]

/-- The header fields `read` decodes are the fields at the offsets of the format table. -/
theorem stream_fields (ifs : List Nat) :
    (Bitmap_file_header.of_bytes (ifs.take 14)).type = stream_type ifs ∧
    (DIB_header.of_bytes ((ifs.drop 14).take 40)).bit_count = stream_bit_count ifs ∧
    (DIB_header.of_bytes ((ifs.drop 14).take 40)).width = stream_width ifs ∧
    (DIB_header.of_bytes ((ifs.drop 14).take 40)).height = stream_height ifs := by
  refine ⟨?_, ?_, ?_, ?_⟩
  · show le_val ((ifs.take 14).take 2) = le_val (ifs.take 2)
    rw [List.take_take]
    rfl
  · show le_val ((((ifs.drop 14).take 40).drop 14).take 2) = le_val ((ifs.drop 28).take 2)
    rw [slice_slice _ _ _ _ _ (by omega)]
  · show to_int32 (le_val ((((ifs.drop 14).take 40).drop 4).take 4)) =
      to_int32 (le_val ((ifs.drop 18).take 4))
    rw [slice_slice _ _ _ _ _ (by omega)]
  · show to_int32 (le_val ((((ifs.drop 14).take 40).drop 8).take 4)) =
      to_int32 (le_val ((ifs.drop 22).take 4))
    rw [slice_slice _ _ _ _ _ (by omega)]

/-- Pixel data whose pixels are those of the grid and whose padding bytes are zero is the
encoding of the grid. -/
theorem encoded_rows_eq {pa : List (List Nat)} {h w : Nat} (hg : is_grid pa h w) (pad : Nat)
    (data : List Nat) (hlen : data.length = h * (w + pad))
    (hpx : ∀ r c, r < h → c < w → data.getD (r * (w + pad) + c) 0 = get_pixel pa r c)
    (hzero : ∀ r k, r < h → k < pad → data.getD (r * (w + pad) + w + k) 0 = 0) :
    pa.flatMap (fun row => row ++ List.replicate pad 0) = data := by
  have hlen2 := length_flatMap_rows hg (List.replicate pad 0)
  rw [List.length_replicate] at hlen2
  apply List.ext_getElem (by rw [hlen2, hlen])
  intro i h1 h2
  rw [hlen2] at h1
  have hpos : 0 < w + pad := by
    rcases Nat.eq_zero_or_pos (w + pad) with h0 | h0
    · rw [h0, Nat.mul_zero] at h1
      omega
    · exact h0
  have hi : i = i / (w + pad) * (w + pad) + i % (w + pad) := by
    have := Nat.div_add_mod i (w + pad)
    rw [Nat.mul_comm] at this
    exact this.symm
  have hr : i / (w + pad) < h := (Nat.div_lt_iff_lt_mul hpos).2 h1
  have hk : i % (w + pad) < w + pad := Nat.mod_lt _ hpos
  rw [List.getElem_eq_iff]
  have e := encoded_rows_getElem hg pad (i / (w + pad)) (i % (w + pad)) hr hk
  rw [← hi] at e
  rw [e]
  congr 1
  have hd : data[i] = data.getD i 0 := (List.getD_eq_getElem _ _ h2).symm
  rw [hd]
  by_cases hc : i % (w + pad) < w
  · rw [if_pos hc, ← hpx _ _ hr hc, ← hi]
  · rw [if_neg hc]
    have := hzero (i / (w + pad)) (i % (w + pad) - w) hr (by omega)
    have hidx : i / (w + pad) * (w + pad) + w + (i % (w + pad) - w) = i := by omega
    rw [hidx] at this
    exact this.symm

/-! ## Re-encoding a decoded file -/

/-- C10 (re-encoding preserves the bytes): for every byte stream whose magic is `BM`, whose
bits-per-pixel field is 8, whose width `w` and height `h` are at least 0, whose length is
exactly `1078 + (w + pad) * h` with `pad = (4 - w mod 4) mod 4`, and whose row padding bytes
are all zero, `read` succeeds and `write` applied to the image it returns produces exactly
the stream. -/
theorem write_read_roundtrip (ifs : List Nat) (hb : is_bytes ifs)
    (hmagic : stream_type ifs = 0x4D42) (hbits : stream_bit_count ifs = 8)
    (hw : 0 ≤ stream_width ifs) (hh : 0 ≤ stream_height ifs)
    (hlen : ifs.length = 1078 + ((stream_width ifs).toNat +
      ((4 - stream_width ifs % 4) % 4).toNat) * (stream_height ifs).toNat)
    (hzero : ∀ r k, r < (stream_height ifs).toNat →
      k < ((4 - stream_width ifs % 4) % 4).toNat →
      ifs.getD (1078 + r * ((stream_width ifs).toNat +
        ((4 - stream_width ifs % 4) % 4).toNat) + (stream_width ifs).toNat + k) 0 = 0) :
    ∃ img, read ifs = .ok img ∧ write img = ifs := by
  obtain ⟨f1, f2, f3, f4⟩ := stream_fields ifs
  obtain ⟨p1, p2, p3⟩ := row_padding_nonneg_width _ hw
  rw [← p1] at hlen hzero
  obtain ⟨pa, hread, hg, hpx⟩ := read_ok ifs (by omega) (by rw [f1]; exact hmagic)
    (by rw [f2]; exact hbits) (by rw [f4]; exact hh) (by rw [f3]; exact hw)
    (by
      rw [f3, f4, hlen, Nat.mul_comm]
      omega)
  rw [f3, f4] at hg hpx
  rw [f3] at hread
  refine ⟨_, hread, ?_⟩
  have hct : ((ifs.drop 54).take 1024).length = 1024 := length_slice ifs 54 1024 (by omega)
  have hz : ∀ r k, r < (stream_height ifs).toNat → k < (row_padding (stream_width ifs)).toNat →
      (ifs.drop 1078).getD (r * ((stream_width ifs).toNat +
        (row_padding (stream_width ifs)).toNat) + (stream_width ifs).toNat + k) 0 = 0 := by
    intro r k hr hk
    have h0 := hzero r k hr hk
    have hidx : 1078 + (r * ((stream_width ifs).toNat + (row_padding (stream_width ifs)).toNat) +
        (stream_width ifs).toNat + k) = 1078 + r * ((stream_width ifs).toNat +
        (row_padding (stream_width ifs)).toNat) + (stream_width ifs).toNat + k := by omega
    rw [getD_drop, hidx]
    exact h0
  rw [write_eq_of _ hct (by rw [f3, f4]; exact hg) (by show (row_padding _).toNat ≤ 3; omega)]
  show (Bitmap_file_header.of_bytes (ifs.take 14)).bytes ++
      (DIB_header.of_bytes ((ifs.drop 14).take 40)).bytes ++ (ifs.drop 54).take 1024 ++
      pa.flatMap (fun row => row ++ List.replicate (row_padding (stream_width ifs)).toNat 0) = ifs
  rw [file_header_bytes_of_bytes _ (by rw [List.length_take]; omega) (is_bytes_take hb _),
    info_header_bytes_of_bytes _ (length_slice ifs 14 40 (by omega))
      (is_bytes_take (is_bytes_drop hb _) _),
    take_append_slice ifs 14 40 54 rfl, take_append_slice ifs 54 1024 1078 rfl,
    encoded_rows_eq hg (row_padding (stream_width ifs)).toNat (ifs.drop 1078)
      (by rw [List.length_drop, hlen, Nat.mul_comm]; omega)
      (fun r c hr hc => by rw [getD_drop, hpx r c hr hc, Nat.add_assoc])
      hz,
    List.take_append_drop]

theorem length_file_1x1_head : file_1x1_head.length = 1078 := by
  simp only [file_1x1_head, blank_table, List.length_append, List.length_replicate,
    List.length_cons, List.length_nil]

/-- The stream `file_1x1` has 1082 bytes, all below 256. -/
theorem file_1x1_bytes : is_bytes file_1x1 ∧ file_1x1.length = 1082 := by
  constructor
  · intro x hx
    simp only [file_1x1, file_1x1_head, blank_table, List.mem_append, List.mem_replicate] at hx
    rcases hx with ((hx | hx) | hx) | hx
    · revert x; decide
    · revert x; decide
    · omega
    · revert x; decide
  · rw [file_1x1, List.length_append, length_file_1x1_head]
    rfl

/-- Bytes of `file_1x1` from offset 1078 on: one pixel and three padding bytes. -/
theorem file_1x1_data (j : Nat) : file_1x1.getD (1078 + j) 0 = [9, 0, 0, 0].getD j 0 := by
  unfold file_1x1
  rw [List.getD_append_right _ _ _ _ (by rw [length_file_1x1_head]; omega),
    length_file_1x1_head, Nat.add_sub_cancel_left]

/-- C10, witness: the 1082-byte file of a 1×1 image is read and written back unchanged. -/
theorem write_read_roundtrip_witness :
    is_bytes file_1x1 ∧ stream_type file_1x1 = 0x4D42 ∧ stream_bit_count file_1x1 = 8 ∧
    stream_width file_1x1 = 1 ∧ stream_height file_1x1 = 1 ∧ file_1x1.length = 1082 ∧
    ∃ img, read file_1x1 = .ok img ∧ write img = file_1x1 := by
  have hw : stream_width file_1x1 = 1 := by decide
  have hh : stream_height file_1x1 = 1 := by decide
  refine ⟨file_1x1_bytes.1, by decide, by decide, hw, hh, file_1x1_bytes.2, ?_⟩
  apply write_read_roundtrip file_1x1 file_1x1_bytes.1 (by decide) (by decide)
    (by rw [hw]; decide) (by rw [hh]; decide)
  · rw [hw, hh, file_1x1_bytes.2]
    decide
  · rw [hw, hh]
    intro r k hr hk
    have hr0 : r = 0 := by
      have : (1 : Int).toNat = 1 := by decide
      omega
    have hk3 : k < 3 := by
      have : ((4 - (1 : Int) % 4) % 4).toNat = 3 := by decide
      omega
    subst hr0
    have hidx : 1078 + 0 * ((1 : Int).toNat + ((4 - (1 : Int) % 4) % 4).toNat) +
        (1 : Int).toNat + k = 1078 + (1 + k) := by
      have : (1 : Int).toNat = 1 := by decide
      omega
    rw [hidx, file_1x1_data]
    interval_cases k <;> rfl

/-! ## Frame, range and order of the bounds -/

/-- C13 (crop frame): when the four scans each find their bound, the colour table of the
returned image and every header field other than `info_header.height`,
`info_header.width`, `file_header.off_bits` and `file_header.size` equal the source's;
in particular `size_image` is carried over unchanged. -/
theorem crop_frame (b : Bitmap) (bd : Bounds) (hb : crop_bounds b = some bd) :
    ∃ copy, crop b = some copy ∧
      copy.color_table = b.color_table ∧
      copy.file_header.type = b.file_header.type ∧
      copy.file_header.reserved1 = b.file_header.reserved1 ∧
      copy.file_header.reserved2 = b.file_header.reserved2 ∧
      copy.info_header.size = b.info_header.size ∧
      copy.info_header.planes = b.info_header.planes ∧
      copy.info_header.bit_count = b.info_header.bit_count ∧
      copy.info_header.compression = b.info_header.compression ∧
      copy.info_header.size_image = b.info_header.size_image ∧
      copy.info_header.x_pixels_per_meter = b.info_header.x_pixels_per_meter ∧
      copy.info_header.y_pixels_per_meter = b.info_header.y_pixels_per_meter ∧
      copy.info_header.colors_used = b.info_header.colors_used ∧
      copy.info_header.colors_important = b.info_header.colors_important := by
  refine ⟨crop_copy b bd, ?_, ?_⟩
  · unfold crop
    rw [hb]
  · unfold crop_copy
    exact ⟨rfl, rfl, rfl, rfl, rfl, rfl, rfl, rfl, rfl, rfl, rfl, rfl, rfl⟩

/-- C13, witness: the 3×3 image with one foreground pixel; the copy is 1×1 and keeps the
colour table and the untouched header fields. -/
theorem crop_frame_witness :
    crop_bounds image_3x3 = some ⟨1, 1, 1, 1⟩ ∧
    ∃ copy, crop image_3x3 = some copy ∧
      copy.color_table = image_3x3.color_table ∧
      copy.file_header.type = image_3x3.file_header.type ∧
      copy.file_header.reserved1 = image_3x3.file_header.reserved1 ∧
      copy.file_header.reserved2 = image_3x3.file_header.reserved2 ∧
      copy.info_header.size = image_3x3.info_header.size ∧
      copy.info_header.planes = image_3x3.info_header.planes ∧
      copy.info_header.bit_count = image_3x3.info_header.bit_count ∧
      copy.info_header.compression = image_3x3.info_header.compression ∧
      copy.info_header.size_image = image_3x3.info_header.size_image ∧
      copy.info_header.x_pixels_per_meter = image_3x3.info_header.x_pixels_per_meter ∧
      copy.info_header.y_pixels_per_meter = image_3x3.info_header.y_pixels_per_meter ∧
      copy.info_header.colors_used = image_3x3.info_header.colors_used ∧
      copy.info_header.colors_important = image_3x3.info_header.colors_important :=
  ⟨by decide, crop_frame image_3x3 ⟨1, 1, 1, 1⟩ (by decide)⟩

/-- C14 (bounds ordered and in range): whatever the two corner colours, when the four scans
each find their bound, `0 ≤ y_lower ≤ y_upper ≤ h-1` and `0 ≤ x_lower ≤ x_upper ≤ w-1`;
so the new height and width are at least 1 and at most `h` and `w`, and every cell
`(r + y_lower, c + x_lower)` read by the copy loop lies inside the source grid. -/
theorem crop_bounds_in_range (b : Bitmap) (bd : Bounds)
    (_hh : 1 ≤ b.info_header.height) (_hw : 1 ≤ b.info_header.width)
    (hg : is_grid b.pixel_array b.info_header.height.toNat b.info_header.width.toNat)
    (hb : crop_bounds b = some bd) :
    (0 ≤ (bd.y_lower_bound : Int) ∧ bd.y_lower_bound ≤ bd.y_upper_bound ∧
      (bd.y_upper_bound : Int) ≤ b.info_header.height - 1) ∧
    (0 ≤ (bd.x_lower_bound : Int) ∧ bd.x_lower_bound ≤ bd.x_upper_bound ∧
      (bd.x_upper_bound : Int) ≤ b.info_header.width - 1) ∧
    ∃ copy, crop b = some copy ∧
      1 ≤ copy.info_header.height ∧ copy.info_header.height ≤ b.info_header.height ∧
      1 ≤ copy.info_header.width ∧ copy.info_header.width ≤ b.info_header.width ∧
      ∀ r c, r < copy.info_header.height.toNat → c < copy.info_header.width.toNat →
        ∃ (hr : r + bd.y_lower_bound < b.pixel_array.length)
          (hc : c + bd.x_lower_bound < (b.pixel_array.get ⟨r + bd.y_lower_bound, hr⟩).length),
          (b.pixel_array.get ⟨r + bd.y_lower_bound, hr⟩).get ⟨c + bd.x_lower_bound, hc⟩ =
            get_pixel copy.pixel_array r c := by
  obtain ⟨-, -, s3, s4⟩ := (crop_bounds_eq_some b bd).1 hb
  obtain ⟨o1, o2, -, -⟩ := (scan_rows_downto _ _ _ _ _ _ _).1 s3
  obtain ⟨o3, o4, -, -⟩ := (scan_cols_downto _ _ _ _ _ _ _).1 s4
  refine ⟨⟨by omega, o1, by omega⟩, ⟨by omega, o3, by omega⟩, crop_copy b bd, ?_, ?_⟩
  · unfold crop
    rw [hb]
  · have hhei : (crop_copy b bd).info_header.height =
        (bd.y_upper_bound : Int) + 1 - bd.y_lower_bound := rfl
    have hwid : (crop_copy b bd).info_header.width =
        (bd.x_upper_bound : Int) + 1 - bd.x_lower_bound := rfl
    rw [hhei, hwid]
    refine ⟨by omega, by omega, by omega, by omega, fun r c hr hc => ?_⟩
    have hr1 : r < bd.y_upper_bound + 1 - bd.y_lower_bound := by omega
    have hc1 : c < bd.x_upper_bound + 1 - bd.x_lower_bound := by omega
    have hrl : r + bd.y_lower_bound < b.pixel_array.length := by rw [hg.1]; omega
    have hrow : (b.pixel_array.get ⟨r + bd.y_lower_bound, hrl⟩).length =
        b.info_header.width.toNat := hg.2 _ (List.get_mem _ _ _)
    have hcl : c + bd.x_lower_bound <
        (b.pixel_array.get ⟨r + bd.y_lower_bound, hrl⟩).length := by rw [hrow]; omega
    refine ⟨hrl, hcl, ?_⟩
    rw [(crop_copy_pixels b bd).2 r c hr1 hc1]
    unfold get_pixel
    rw [List.getD_eq_getElem _ _ hrl]
    exact (List.getD_eq_getElem (b.pixel_array.get ⟨r + bd.y_lower_bound, hrl⟩) 0 hcl).symm

/-- C14, witness: the 2×2 image `[[0, 1], [2, 3]]`, whose corners differ. -/
theorem crop_bounds_in_range_witness :
    crop_bounds image_2x2 = some ⟨0, 1, 0, 1⟩ ∧
    (0 ≤ ((0 : Nat) : Int) ∧ 0 ≤ 1 ∧ ((1 : Nat) : Int) ≤ image_2x2.info_header.height - 1) ∧
    (0 ≤ ((0 : Nat) : Int) ∧ 0 ≤ 1 ∧ ((1 : Nat) : Int) ≤ image_2x2.info_header.width - 1) ∧
    ∃ copy, crop image_2x2 = some copy ∧
      1 ≤ copy.info_header.height ∧ copy.info_header.height ≤ image_2x2.info_header.height ∧
      1 ≤ copy.info_header.width ∧ copy.info_header.width ≤ image_2x2.info_header.width ∧
      ∀ r c, r < copy.info_header.height.toNat → c < copy.info_header.width.toNat →
        ∃ (hr : r + 0 < image_2x2.pixel_array.length)
          (hc : c + 0 < (image_2x2.pixel_array.get ⟨r + 0, hr⟩).length),
          (image_2x2.pixel_array.get ⟨r + 0, hr⟩).get ⟨c + 0, hc⟩ =
            get_pixel copy.pixel_array r c :=
  ⟨by decide,
    crop_bounds_in_range image_2x2 ⟨0, 1, 0, 1⟩ (by decide) (by decide) (by decide) (by decide)⟩

/-- C15 (column scans after row scans): when the `y_lower_bound` scan finds a pixel, the
`x_lower_bound` scan (columns left to right, rows `y_lower .. h-1`, same background) finds
one too; and when the `y_upper_bound` scan finds a pixel, the `x_upper_bound` scan (columns
`w-1` down to `x_lower`, rows `y_lower .. y_upper`, same background) finds one too. -/
theorem column_scans_find (b : Bitmap) (_hh : 1 ≤ b.info_header.height)
    (_hw : 1 ≤ b.info_header.width) :
    (∀ y_lower,
      scan_rows b.pixel_array (get_pixel b.pixel_array 0 0)
        (upto 0 b.info_header.height.toNat) (upto 0 b.info_header.width.toNat) = some y_lower →
      ∃ x_lower, scan_cols b.pixel_array (get_pixel b.pixel_array 0 0)
        (upto 0 b.info_header.width.toNat) (upto y_lower b.info_header.height.toNat)
          = some x_lower) ∧
    (∀ y_lower x_lower y_upper,
      scan_rows b.pixel_array
        (get_pixel b.pixel_array (b.info_header.height.toNat - 1)
          (b.info_header.width.toNat - 1))
        (downto b.info_header.height.toNat y_lower) (upto x_lower b.info_header.width.toNat)
          = some y_upper →
      ∃ x_upper, scan_cols b.pixel_array
        (get_pixel b.pixel_array (b.info_header.height.toNat - 1)
          (b.info_header.width.toNat - 1))
        (downto b.info_header.width.toNat x_lower) (upto y_lower (y_upper + 1))
          = some x_upper) := by
  constructor
  · intro yl hyl
    obtain ⟨-, hylh, ⟨x1, -, hx1w, hx1⟩, -⟩ := (scan_rows_upto _ _ _ _ _ _ _).1 hyl
    exact scan_cols_found b.pixel_array _ (upto 0 b.info_header.width.toNat)
      yl b.info_header.height.toNat yl x1 (mem_upto.2 ⟨Nat.zero_le _, hx1w⟩) (le_refl _) hylh hx1
  · intro yl xl yu hyu
    obtain ⟨hylu, -, ⟨x3, hx3l, hx3w, hx3⟩, -⟩ := (scan_rows_downto _ _ _ _ _ _ _).1 hyu
    exact scan_cols_found b.pixel_array _ (downto b.info_header.width.toNat xl)
      yl (yu + 1) yu x3 (mem_downto.2 ⟨hx3l, hx3w⟩) hylu (Nat.lt_succ_self _) hx3

/-- C15, witness: on the 4×4 scenario image the two row scans find rows 1 and 2, and the two
column scans that follow them find columns 1 and 2. -/
theorem column_scans_find_witness :
    scan_rows scenario_4x4.pixel_array 0 (upto 0 4) (upto 0 4) = some 1 ∧
    scan_cols scenario_4x4.pixel_array 0 (upto 0 4) (upto 1 4) = some 1 ∧
    scan_rows scenario_4x4.pixel_array 0 (downto 4 1) (upto 1 4) = some 2 ∧
    scan_cols scenario_4x4.pixel_array 0 (downto 4 1) (upto 1 (2 + 1)) = some 2 ∧
    (∃ x_lower, scan_cols scenario_4x4.pixel_array (get_pixel scenario_4x4.pixel_array 0 0)
      (upto 0 scenario_4x4.info_header.width.toNat)
      (upto 1 scenario_4x4.info_header.height.toNat) = some x_lower) ∧
    (∃ x_upper, scan_cols scenario_4x4.pixel_array
      (get_pixel scenario_4x4.pixel_array (scenario_4x4.info_header.height.toNat - 1)
        (scenario_4x4.info_header.width.toNat - 1))
      (downto scenario_4x4.info_header.width.toNat 1) (upto 1 (2 + 1)) = some x_upper) :=
  ⟨by decide, by decide, by decide, by decide,
    (column_scans_find scenario_4x4 (by decide) (by decide)).1 1 (by decide),
    (column_scans_find scenario_4x4 (by decide) (by decide)).2 1 1 2 (by decide)⟩

/-! ## The Image invariant -/

/-- What a successful `read` went through: both format tests passed, the sizes are not
negative, the colour table was read in full, and the pixel loops ended with every read
served by the stream. -/
theorem read_ok_inv (ifs : List Nat) (img : Bitmap) (h : read ifs = .ok img) :
    0 ≤ img.info_header.height ∧ 0 ≤ img.info_header.width ∧
    img.num_padding = row_padding img.info_header.width ∧
    img.color_table = (ifs.drop 54).take 1024 ∧ img.color_table.length = 1024 ∧
    ∃ s, (List.range img.info_header.height.toNat).foldl
        (read_row img.info_header.width.toNat (row_padding img.info_header.width).toNat)
        (some ⟨ifs.drop 1078, List.replicate img.info_header.height.toNat
          (List.replicate img.info_header.width.toNat 0)⟩) = some s ∧
      img.pixel_array = s.pixel_array := by
  unfold read at h
  simp only [List.drop_drop, num_colors, Nat.reduceMul, Nat.reduceAdd] at h
  split at h
  · cases h
  · split at h
    · cases h
    · split at h
      · cases h
      · split at h
        · cases h
        · split at h
          · cases h
          · rename_i hdim hct s hs
            simp only [Except.ok.injEq] at h
            subst h
            refine ⟨?_, ?_, rfl, rfl, ?_, s, hs, rfl⟩
            · dsimp only
              omega
            · dsimp only
              omega
            · have := List.length_take_le 1024 (ifs.drop 54)
              show ((ifs.drop 54).take 1024).length = 1024
              omega

/-- A state of the pixel loops is sound: shape of the grid kept, pixels and stream bytes. -/
theorem read_pixel_sound (h w y x : Nat) (st : Option ReadState)
    (hst : ∀ s, st = some s → is_grid s.pixel_array h w ∧
      (∀ row ∈ s.pixel_array, is_bytes row) ∧ is_bytes s.ifs) :
    ∀ s, read_pixel y st x = some s → is_grid s.pixel_array h w ∧
      (∀ row ∈ s.pixel_array, is_bytes row) ∧ is_bytes s.ifs := by
  intro s hs
  match st, hst with
  | none, _ => simp [read_pixel] at hs
  | some s0, hst =>
    obtain ⟨hg, hrows, hifs⟩ := hst s0 rfl
    unfold read_pixel at hs
    simp only at hs
    split at hs
    · cases hs
    · rename_i v rest hv
      simp only [Option.some.injEq] at hs
      subst hs
      have hvb : v < 256 := hifs v (by rw [hv]; exact List.mem_cons_self _ _)
      refine ⟨is_grid_set_pixel hg _ _ _, ?_, ?_⟩
      · intro row hrow
        unfold set_pixel at hrow
        rcases List.mem_or_eq_of_mem_set hrow with hmem | heq
        · exact hrows row hmem
        · intro p hp
          rw [heq] at hp
          rcases List.mem_or_eq_of_mem_set hp with hmem | hpe
          · by_cases hy : y < s0.pixel_array.length
            · rw [List.getD_eq_getElem _ _ hy] at hmem
              exact hrows _ (List.getElem_mem _) p hmem
            · rw [List.getD_eq_default _ _ (by omega)] at hmem
              simp at hmem
          · rw [hpe]; exact hvb
      · intro p hp
        exact hifs p (by rw [hv]; exact List.mem_cons_of_mem _ hp)

theorem foldl_read_pixel_sound (h w y : Nat) (xs : List Nat) (st : Option ReadState)
    (hst : ∀ s, st = some s → is_grid s.pixel_array h w ∧
      (∀ row ∈ s.pixel_array, is_bytes row) ∧ is_bytes s.ifs) :
    ∀ s, xs.foldl (read_pixel y) st = some s → is_grid s.pixel_array h w ∧
      (∀ row ∈ s.pixel_array, is_bytes row) ∧ is_bytes s.ifs := by
  induction xs generalizing st with
  | nil => exact hst
  | cons x xs ih =>
    rw [List.foldl_cons]
    exact ih _ (read_pixel_sound h w y x st hst)

theorem read_row_sound (h w width pad y : Nat) (st : Option ReadState)
    (hst : ∀ s, st = some s → is_grid s.pixel_array h w ∧
      (∀ row ∈ s.pixel_array, is_bytes row) ∧ is_bytes s.ifs) :
    ∀ s, read_row width pad st y = some s → is_grid s.pixel_array h w ∧
      (∀ row ∈ s.pixel_array, is_bytes row) ∧ is_bytes s.ifs := by
  intro s hs
  unfold read_row at hs
  split at hs
  · cases hs
  · rename_i s1 hs1
    simp only [Option.some.injEq] at hs
    subst hs
    obtain ⟨hg, hrows, hifs⟩ := foldl_read_pixel_sound h w y _ st hst s1 hs1
    exact ⟨hg, hrows, is_bytes_drop hifs _⟩

theorem foldl_read_row_sound (h w width pad : Nat) (ys : List Nat) (st : Option ReadState)
    (hst : ∀ s, st = some s → is_grid s.pixel_array h w ∧
      (∀ row ∈ s.pixel_array, is_bytes row) ∧ is_bytes s.ifs) :
    ∀ s, ys.foldl (read_row width pad) st = some s → is_grid s.pixel_array h w ∧
      (∀ row ∈ s.pixel_array, is_bytes row) ∧ is_bytes s.ifs := by
  induction ys generalizing st with
  | nil => exact hst
  | cons y ys ih =>
    rw [List.foldl_cons]
    exact ih _ (read_row_sound h w width pad y st hst)

/-- Every image `read` returns on a stream of bytes satisfies the invariant. -/
theorem read_invariant (ifs : List Nat) (img : Bitmap) (hb : is_bytes ifs)
    (h : read ifs = .ok img) : img.invariant := by
  obtain ⟨hh, hw, hnp, -, -, s, hs, hpa⟩ := read_ok_inv ifs img h
  obtain ⟨hg, hrows, -⟩ := foldl_read_row_sound img.info_header.height.toNat
    img.info_header.width.toNat _ _ _ _ (by
      intro s0 hs0
      simp only [Option.some.injEq] at hs0
      subst hs0
      refine ⟨is_grid_replicate _ _, ?_, is_bytes_drop hb _⟩
      intro row hrow p hp
      rw [(List.mem_replicate.1 hrow).2] at hp
      rw [(List.mem_replicate.1 hp).2]
      decide) s hs
  rw [← hpa] at hg hrows
  refine ⟨?_, fun row hrow => ⟨?_, hrows row hrow⟩, ?_⟩
  · rw [hg.1]; omega
  · rw [hg.2 row hrow]; omega
  · rw [hnp]; exact (row_padding_nonneg_width _ hw).1

theorem getD_lt_of_is_bytes (l : List Nat) (hl : is_bytes l) (x : Nat) : l.getD x 0 < 256 := by
  by_cases hx : x < l.length
  · rw [List.getD_eq_getElem _ _ hx]
    exact hl _ (List.getElem_mem _)
  · rw [List.getD_eq_default _ _ (not_lt.1 hx)]
    decide

theorem get_pixel_lt (pa : List (List Nat)) (hrows : ∀ row ∈ pa, is_bytes row) (y x : Nat) :
    get_pixel pa y x < 256 := by
  unfold get_pixel
  apply getD_lt_of_is_bytes
  by_cases hy : y < pa.length
  · rw [List.getD_eq_getElem _ _ hy]
    exact hrows _ (List.getElem_mem _)
  · rw [List.getD_eq_default _ _ (not_lt.1 hy)]
    intro p hp
    simp at hp

/-- Every cell of a grid is read by `get_pixel` at some position inside the grid. -/
theorem mem_grid {pa : List (List Nat)} {h w : Nat} (hg : is_grid pa h w) {row : List Nat}
    (hrow : row ∈ pa) {p : Nat} (hp : p ∈ row) :
    ∃ r c, r < h ∧ c < w ∧ p = get_pixel pa r c := by
  obtain ⟨r, hr, hre⟩ := List.getElem_of_mem hrow
  obtain ⟨c, hc, hce⟩ := List.getElem_of_mem hp
  refine ⟨r, c, by rw [← hg.1]; exact hr, by rw [← hg.2 row hrow]; exact hc, ?_⟩
  unfold get_pixel
  rw [List.getD_eq_getElem _ _ hr]
  subst hre
  rw [List.getD_eq_getElem _ _ hc, hce]

/-- The image `crop` builds satisfies the invariant when the source's pixels are bytes. -/
theorem crop_copy_invariant (b : Bitmap) (bd : Bounds)
    (hrows : ∀ row ∈ b.pixel_array, is_bytes row)
    (hy : bd.y_lower_bound ≤ bd.y_upper_bound) (hx : bd.x_lower_bound ≤ bd.x_upper_bound) :
    (crop_copy b bd).invariant := by
  obtain ⟨hg, hpx⟩ := crop_copy_pixels b bd
  have hhei : (crop_copy b bd).info_header.height =
      (bd.y_upper_bound : Int) + 1 - bd.y_lower_bound := rfl
  have hwid : (crop_copy b bd).info_header.width =
      (bd.x_upper_bound : Int) + 1 - bd.x_lower_bound := rfl
  have hnp : (crop_copy b bd).num_padding = row_padding (crop_copy b bd).info_header.width := rfl
  refine ⟨?_, fun row hrow => ⟨?_, ?_⟩, ?_⟩
  · rw [hg.1, hhei]; omega
  · rw [hg.2 row hrow, hwid]; omega
  · intro p hp
    obtain ⟨r, c, hr, hc, hpe⟩ := mem_grid hg hrow hp
    rw [hpe, hpx r c hr hc]
    exact get_pixel_lt _ hrows _ _
  · rw [hnp]
    exact (row_padding_nonneg_width _ (by rw [hwid]; omega)).1

/-- On a stream with magic `BM`, bit depth 8, sizes that are not negative and enough bytes
for the headers, the colour table and the rows, `read` returns the decoded headers, the
1024 bytes at offset 54 and the grid of the pixel bytes. -/
theorem read_decoded (ifs : List Nat)
    (hmagic : stream_type ifs = 0x4D42) (hbits : stream_bit_count ifs = 8)
    (hw : 0 ≤ stream_width ifs) (hh : 0 ≤ stream_height ifs)
    (hlen : 1078 + ((stream_width ifs).toNat + (row_padding (stream_width ifs)).toNat) *
      (stream_height ifs).toNat ≤ ifs.length) :
    ∃ pa, read ifs = .ok ⟨row_padding (stream_width ifs),
        Bitmap_file_header.of_bytes (ifs.take 14),
        DIB_header.of_bytes ((ifs.drop 14).take 40), (ifs.drop 54).take 1024, pa⟩ ∧
      is_grid pa (stream_height ifs).toNat (stream_width ifs).toNat ∧
      ∀ r c, r < (stream_height ifs).toNat → c < (stream_width ifs).toNat →
        get_pixel pa r c = ifs.getD (1078 + r * ((stream_width ifs).toNat +
          (row_padding (stream_width ifs)).toNat) + c) 0 := by
  obtain ⟨f1, f2, f3, f4⟩ := stream_fields ifs
  obtain ⟨pa, hread, hg, hpx⟩ := read_ok ifs (by omega) (by rw [f1]; exact hmagic)
    (by rw [f2]; exact hbits) (by rw [f4]; exact hh) (by rw [f3]; exact hw)
    (by
      rw [f3, f4, Nat.mul_comm]
      omega)
  rw [f3, f4] at hg hpx
  rw [f3] at hread
  exact ⟨pa, hread, hg, hpx⟩

/-! ## Which bytes of the file the decoded image depends on -/

theorem getElem?_eq_of_getD (l l' : List Nat) (hlen : l'.length = l.length) (j : Nat)
    (h : l'.getD j 0 = l.getD j 0) : l'[j]? = l[j]? := by
  by_cases hj : j < l.length
  · have hj' : j < l'.length := by omega
    rw [List.getD_eq_getElem _ _ hj, List.getD_eq_getElem _ _ hj'] at h
    rw [List.getElem?_eq_getElem hj, List.getElem?_eq_getElem hj', h]
  · rw [List.getElem?_eq_none (by omega), List.getElem?_eq_none (by omega)]

/-- Two streams of the same length that agree on a range of offsets have the same slice. -/
theorem slice_congr (l l' : List Nat) (hlen : l'.length = l.length) (a n : Nat)
    (h : ∀ i, a ≤ i → i < a + n → l'.getD i 0 = l.getD i 0) :
    (l'.drop a).take n = (l.drop a).take n := by
  apply List.ext_getElem?
  intro i
  rw [List.getElem?_take, List.getElem?_take, List.getElem?_drop, List.getElem?_drop]
  by_cases hi : i < n
  · rw [if_pos hi, if_pos hi]
    exact getElem?_eq_of_getD l l' hlen _ (h _ (by omega) (by omega))
  · rw [if_neg hi, if_neg hi]

theorem take_congr (l l' : List Nat) (hlen : l'.length = l.length) (n : Nat)
    (h : ∀ i, i < n → l'.getD i 0 = l.getD i 0) : l'.take n = l.take n := by
  have := slice_congr l l' hlen 0 n (fun i _ hi => h i (by omega))
  simpa using this

theorem take_slice (l : List Nat) (n k j : Nat) (h : k + j ≤ n) :
    ((l.take n).drop k).take j = (l.drop k).take j := by
  have := slice_slice l 0 n k j h
  simpa using this

/-- A second stream that agrees with the first on the magic, on the width, height and
bit-depth fields, on the colour table and on the pixel bytes is decoded to the same colour
table, padding and grid. -/
theorem read_decoded_congr (ifs ifs' : List Nat)
    (hmagic : stream_type ifs = 0x4D42) (hbits : stream_bit_count ifs = 8)
    (hw : 0 ≤ stream_width ifs) (hh : 0 ≤ stream_height ifs)
    (hlen : 1078 + ((stream_width ifs).toNat + (row_padding (stream_width ifs)).toNat) *
      (stream_height ifs).toNat ≤ ifs.length)
    (pa : List (List Nat))
    (hg : is_grid pa (stream_height ifs).toNat (stream_width ifs).toNat)
    (hpx : ∀ r c, r < (stream_height ifs).toNat → c < (stream_width ifs).toNat →
      get_pixel pa r c = ifs.getD (1078 + r * ((stream_width ifs).toNat +
        (row_padding (stream_width ifs)).toNat) + c) 0)
    (hlen' : ifs'.length = ifs.length)
    (h2 : ∀ i, i < 2 → ifs'.getD i 0 = ifs.getD i 0)
    (hdim : ∀ i, 18 ≤ i → i < 26 → ifs'.getD i 0 = ifs.getD i 0)
    (hbpp : ∀ i, 28 ≤ i → i < 30 → ifs'.getD i 0 = ifs.getD i 0)
    (htab : ∀ i, 54 ≤ i → i < 1078 → ifs'.getD i 0 = ifs.getD i 0)
    (hpix : ∀ r c, r < (stream_height ifs).toNat → c < (stream_width ifs).toNat →
      ifs'.getD (1078 + r * ((stream_width ifs).toNat +
        (row_padding (stream_width ifs)).toNat) + c) 0 =
      ifs.getD (1078 + r * ((stream_width ifs).toNat +
        (row_padding (stream_width ifs)).toNat) + c) 0) :
    read ifs' = .ok ⟨row_padding (stream_width ifs), Bitmap_file_header.of_bytes (ifs'.take 14),
      DIB_header.of_bytes ((ifs'.drop 14).take 40), (ifs.drop 54).take 1024, pa⟩ := by
  have e1 : stream_type ifs' = stream_type ifs := by
    unfold stream_type
    rw [take_congr ifs ifs' hlen' 2 h2]
  have e2 : stream_bit_count ifs' = stream_bit_count ifs := by
    unfold stream_bit_count
    rw [slice_congr ifs ifs' hlen' 28 2 (fun i h1 h2 => hbpp i (by omega) (by omega))]
  have e3 : stream_width ifs' = stream_width ifs := by
    unfold stream_width
    rw [slice_congr ifs ifs' hlen' 18 4 (fun i h1 h2 => hdim i (by omega) (by omega))]
  have e4 : stream_height ifs' = stream_height ifs := by
    unfold stream_height
    rw [slice_congr ifs ifs' hlen' 22 4 (fun i h1 h2 => hdim i (by omega) (by omega))]
  have e6 : (ifs'.drop 54).take 1024 = (ifs.drop 54).take 1024 :=
    slice_congr ifs ifs' hlen' 54 1024 (fun i h1 h2 => htab i (by omega) (by omega))
  obtain ⟨pa', hread, hg', hpx'⟩ := read_decoded ifs' (by rw [e1]; exact hmagic)
    (by rw [e2]; exact hbits) (by rw [e3]; exact hw) (by rw [e4]; exact hh)
    (by rw [e3, e4, hlen']; exact hlen)
  rw [e3, e4] at hg' hpx'
  rw [e3, e6] at hread
  have hpa : pa' = pa := by
    apply grid_ext hg' hg
    intro r c hr hc
    rw [hpx' r c hr hc, hpx r c hr hc]
    exact hpix r c hr hc
  rw [hread, hpa]

/-- Offset of a pixel inside its encoded row. -/
theorem pixel_offset_mod (r c w pad : Nat) (hc : c < w) :
    (1078 + r * (w + pad) + c - 1078) % (w + pad) = c := by
  have e : 1078 + r * (w + pad) + c - 1078 = r * (w + pad) + c := by omega
  rw [e, Nat.mul_add_mod', Nat.mod_eq_of_lt (by omega)]

/-- C11 (decoded pixel layout): on a stream accepted by both format tests, with width `w`
and height `h` not negative and at least `1078 + (w + pad) * h` bytes, `read` returns an
image whose colour table is bytes 54 to 1077 of the stream and whose pixel `(r, c)` is byte
`1078 + r * (w + pad) + c`. Nothing else of the stream reaches the colour table or the
grid: a stream that differs only in the padding bytes after the rows is decoded to the same
image, and one that differs only in the pixel-data-offset field (offsets 10 to 13) or only
in the `colors_used` field (offsets 46 to 49) is decoded to the same colour table, grid and
padding, the changed field being merely copied into its header. -/
theorem read_pixel_layout (ifs : List Nat)
    (hmagic : stream_type ifs = 0x4D42) (hbits : stream_bit_count ifs = 8)
    (hw : 0 ≤ stream_width ifs) (hh : 0 ≤ stream_height ifs)
    (hlen : 1078 + ((stream_width ifs).toNat + ((4 - stream_width ifs % 4) % 4).toNat) *
      (stream_height ifs).toNat ≤ ifs.length) :
    ∃ img, read ifs = .ok img ∧
      img.color_table = (ifs.drop 54).take 1024 ∧ img.color_table.length = 1024 ∧
      is_grid img.pixel_array (stream_height ifs).toNat (stream_width ifs).toNat ∧
      (∀ r c, r < (stream_height ifs).toNat → c < (stream_width ifs).toNat →
        get_pixel img.pixel_array r c = ifs.getD (1078 + r * ((stream_width ifs).toNat +
          ((4 - stream_width ifs % 4) % 4).toNat) + c) 0) ∧
      (∀ ifs', ifs'.length = ifs.length →
        (∀ i, (i < 1078 ∨ (i - 1078) % ((stream_width ifs).toNat +
            ((4 - stream_width ifs % 4) % 4).toNat) < (stream_width ifs).toNat) →
          ifs'.getD i 0 = ifs.getD i 0) →
        read ifs' = .ok img) ∧
      (∀ ifs', ifs'.length = ifs.length →
        (∀ i, (i < 10 ∨ 14 ≤ i) → ifs'.getD i 0 = ifs.getD i 0) →
        ∃ img', read ifs' = .ok img' ∧ img'.color_table = img.color_table ∧
          img'.pixel_array = img.pixel_array ∧ img'.num_padding = img.num_padding ∧
          img'.info_header = img.info_header ∧
          img'.file_header = { img.file_header with off_bits := le_val ((ifs'.drop 10).take 4) }) ∧
      (∀ ifs', ifs'.length = ifs.length →
        (∀ i, (i < 46 ∨ 50 ≤ i) → ifs'.getD i 0 = ifs.getD i 0) →
        ∃ img', read ifs' = .ok img' ∧ img'.color_table = img.color_table ∧
          img'.pixel_array = img.pixel_array ∧ img'.num_padding = img.num_padding ∧
          img'.file_header = img.file_header) := by
  obtain ⟨p1, p2, p3⟩ := row_padding_nonneg_width _ hw
  rw [← p1] at hlen ⊢
  obtain ⟨pa, hread, hg, hpx⟩ := read_decoded ifs hmagic hbits hw hh hlen
  refine ⟨_, hread, rfl, length_slice ifs 54 1024 (by omega), hg, hpx, ?_, ?_, ?_⟩
  · intro ifs' hlen' hagree
    have h := read_decoded_congr ifs ifs' hmagic hbits hw hh hlen pa hg hpx hlen'
      (fun i hi => hagree i (Or.inl (by omega)))
      (fun i _ hi => hagree i (Or.inl (by omega)))
      (fun i _ hi => hagree i (Or.inl (by omega)))
      (fun i _ hi => hagree i (Or.inl (by omega)))
      (fun r c hr hc => hagree _ (Or.inr (by rw [pixel_offset_mod r c _ _ hc]; exact hc)))
    rw [h, take_congr ifs ifs' hlen' 14 (fun i hi => hagree i (Or.inl (by omega))),
      slice_congr ifs ifs' hlen' 14 40 (fun i _ hi => hagree i (Or.inl (by omega)))]
  · intro ifs' hlen' hagree
    have h := read_decoded_congr ifs ifs' hmagic hbits hw hh hlen pa hg hpx hlen'
      (fun i hi => hagree i (Or.inl (by omega)))
      (fun i hi _ => hagree i (Or.inr (by omega)))
      (fun i hi _ => hagree i (Or.inr (by omega)))
      (fun i hi _ => hagree i (Or.inr (by omega)))
      (fun r c _ _ => hagree _ (Or.inr (by omega)))
    refine ⟨_, h, rfl, rfl, rfl, ?_, ?_⟩
    · show DIB_header.of_bytes ((ifs'.drop 14).take 40) = DIB_header.of_bytes ((ifs.drop 14).take 40)
      rw [slice_congr ifs ifs' hlen' 14 40 (fun i hi _ => hagree i (Or.inr hi))]
    · show Bitmap_file_header.of_bytes (ifs'.take 14) =
        { Bitmap_file_header.of_bytes (ifs.take 14) with
          off_bits := le_val ((ifs'.drop 10).take 4) }
      simp only [Bitmap_file_header.of_bytes, List.take_take, take_slice _ 14 _ _ (by omega : 2 + 4 ≤ 14),
        take_slice _ 14 _ _ (by omega : 6 + 2 ≤ 14), take_slice _ 14 _ _ (by omega : 8 + 2 ≤ 14),
        take_slice _ 14 _ _ (by omega : 10 + 4 ≤ 14)]
      rw [take_congr ifs ifs' hlen' (min 2 14) (fun i hi => hagree i (Or.inl (by omega))),
        slice_congr ifs ifs' hlen' 2 4 (fun i _ hi => hagree i (Or.inl (by omega))),
        slice_congr ifs ifs' hlen' 6 2 (fun i _ hi => hagree i (Or.inl (by omega))),
        slice_congr ifs ifs' hlen' 8 2 (fun i _ hi => hagree i (Or.inl (by omega)))]
  · intro ifs' hlen' hagree
    have h := read_decoded_congr ifs ifs' hmagic hbits hw hh hlen pa hg hpx hlen'
      (fun i hi => hagree i (Or.inl (by omega)))
      (fun i _ hi => hagree i (Or.inl (by omega)))
      (fun i _ hi => hagree i (Or.inl (by omega)))
      (fun i hi _ => hagree i (Or.inr (by omega)))
      (fun r c _ _ => hagree _ (Or.inr (by omega)))
    refine ⟨_, h, rfl, rfl, rfl, ?_⟩
    show Bitmap_file_header.of_bytes (ifs'.take 14) = Bitmap_file_header.of_bytes (ifs.take 14)
    rw [take_congr ifs ifs' hlen' 14 (fun i hi => hagree i (Or.inl (by omega)))]

theorem getD_head_append (tail : List Nat) (i : Nat) :
    (file_1x1_head ++ tail).getD i 0 =
      if i < 1078 then file_1x1_head.getD i 0 else tail.getD (i - 1078) 0 := by
  by_cases hi : i < 1078
  · rw [if_pos hi, List.getD_append _ _ _ _ (by rw [length_file_1x1_head]; exact hi)]
  · rw [if_neg hi, List.getD_append_right _ _ _ _ (by rw [length_file_1x1_head]; omega),
      length_file_1x1_head]

/-- C11, witness: the file of the 1×1 image is decoded to the colour table at offset 54 and
to the pixel 9 at offset 1078, and the same file with other padding bytes is decoded to the
same image. -/
theorem read_pixel_layout_witness :
    stream_type file_1x1 = 0x4D42 ∧ stream_bit_count file_1x1 = 8 ∧
    stream_width file_1x1 = 1 ∧ stream_height file_1x1 = 1 ∧ file_1x1.length = 1082 ∧
    ∃ img, read file_1x1 = .ok img ∧ img.color_table = (file_1x1.drop 54).take 1024 ∧
      get_pixel img.pixel_array 0 0 = 9 ∧ read file_1x1_junk = .ok img := by
  have hw : stream_width file_1x1 = 1 := by decide
  have hh : stream_height file_1x1 = 1 := by decide
  have h1 : (1 : Int).toNat = 1 := by decide
  have h3 : ((4 - (1 : Int) % 4) % 4).toNat = 3 := by decide
  refine ⟨by decide, by decide, hw, hh, file_1x1_bytes.2, ?_⟩
  obtain ⟨img, hread, hct, -, -, hpx, hpad, -⟩ := read_pixel_layout file_1x1 (by decide)
    (by decide) (by rw [hw]; decide) (by rw [hh]; decide)
    (by rw [hw, hh, file_1x1_bytes.2]; decide)
  rw [hw, hh, h1, h3] at hpx
  rw [hw, h1, h3] at hpad
  refine ⟨img, hread, hct, ?_, ?_⟩
  · rw [hpx 0 0 (by omega) (by omega)]
    exact file_1x1_data 0
  · apply hpad
    · rw [file_1x1_bytes.2, file_1x1_junk, List.length_append, length_file_1x1_head]
      rfl
    · intro i hi
      rw [file_1x1_junk, file_1x1, getD_head_append, getD_head_append]
      by_cases hlt : i < 1078
      · rw [if_pos hlt, if_pos hlt]
      · rw [if_neg hlt, if_neg hlt]
        have hmod : (i - 1078) % 4 = 0 := by omega
        rcases Nat.lt_or_ge (i - 1078) 4 with h4 | h4
        · have h0 : i - 1078 = 0 := by omega
          rw [h0]
          rfl
        · rw [List.getD_eq_default _ _ (by simpa using h4),
            List.getD_eq_default _ _ (by simpa using h4)]

/-! ## The Image invariant on every stream -/

theorem le_val_take4 (l : List Nat) :
    le_val (l.take 4) =
      l.getD 0 0 + 256 * (l.getD 1 0 + 256 * (l.getD 2 0 + 256 * l.getD 3 0)) := by
  match l with
  | [] => rfl
  | [a] => simp [le_val]
  | [a, b] => simp [le_val]
  | [a, b, c] => simp [le_val]
  | a :: b :: c :: d :: rest => simp [le_val]

theorem le_val_slice4 (l : List Nat) (k : Nat) :
    le_val ((l.drop k).take 4) = l.getD k 0 + 256 * (l.getD (k + 1) 0 +
      256 * (l.getD (k + 2) 0 + 256 * l.getD (k + 3) 0)) := by
  rw [le_val_take4, getD_drop, getD_drop, getD_drop, getD_drop, Nat.add_zero]

/-- A byte of the info header after the second `ifs.read`, at an offset where the default
member initialiser leaves a zero byte: the byte of the stream at offset `14 + i`, or 0 when
the stream is too short. -/
theorem overlay_info_getD (ifs : List Nat) (i : Nat) (hi : i < 40)
    (hd : ({} : DIB_header).bytes.getD i 0 = 0) :
    (overlay ((ifs.drop 14).take 40) ({} : DIB_header).bytes).getD i 0 =
      ifs.getD (14 + i) 0 := by
  rw [overlay_getD, hd, getD_take _ _ _ hi, getD_drop]
  by_cases h : i < ((ifs.drop 14).take 40).length
  · rw [if_pos h]
  · rw [if_neg h]
    rw [List.length_take, List.length_drop] at h
    exact (getD_of_length_le _ _ (by omega)).symm

/-- The `width` field after the second `ifs.read` is the 32-bit value at offset 18 of the
stream, bytes the stream does not have counting as the default 0. -/
theorem read_width_eq (ifs : List Nat) :
    (DIB_header.of_bytes (overlay ((ifs.drop 14).take 40) ({} : DIB_header).bytes)).width =
      stream_width ifs := by
  show to_int32 (le_val (((overlay ((ifs.drop 14).take 40)
    ({} : DIB_header).bytes).drop 4).take 4)) = _
  unfold stream_width
  rw [le_val_slice4, le_val_slice4,
    overlay_info_getD ifs 4 (by omega) (by decide),
    overlay_info_getD ifs (4 + 1) (by omega) (by decide),
    overlay_info_getD ifs (4 + 2) (by omega) (by decide),
    overlay_info_getD ifs (4 + 3) (by omega) (by decide)]

/-- The `height` field after the second `ifs.read` is the 32-bit value at offset 22 of the
stream, bytes the stream does not have counting as the default 0. -/
theorem read_height_eq (ifs : List Nat) :
    (DIB_header.of_bytes (overlay ((ifs.drop 14).take 40) ({} : DIB_header).bytes)).height =
      stream_height ifs := by
  show to_int32 (le_val (((overlay ((ifs.drop 14).take 40)
    ({} : DIB_header).bytes).drop 8).take 4)) = _
  unfold stream_height
  rw [le_val_slice4, le_val_slice4,
    overlay_info_getD ifs 8 (by omega) (by decide),
    overlay_info_getD ifs (8 + 1) (by omega) (by decide),
    overlay_info_getD ifs (8 + 2) (by omega) (by decide),
    overlay_info_getD ifs (8 + 3) (by omega) (by decide)]

/-- A stream whose field at offset 28 is 8 has that byte, so it has its first two bytes, and
the `type` field read is the magic of the stream. -/
theorem read_type_of_bit_count (ifs : List Nat) (hbits : stream_bit_count ifs = 8) :
    (Bitmap_file_header.of_bytes (overlay (ifs.take 14) ({} : Bitmap_file_header).bytes)).type =
      stream_type ifs := by
  have hlen : 28 < ifs.length := by
    by_contra hlt
    unfold stream_bit_count at hbits
    rw [le_val_slice2, getD_of_length_le _ _ (by omega), getD_of_length_le _ _ (by omega)] at hbits
    omega
  rw [read_type_eq, if_pos (by omega), if_pos (by omega), stream_type, le_val_take2]

/-- An assignment of a byte keeps a grid of bytes a grid of bytes. -/
theorem is_bytes_set_pixel (pa : List (List Nat)) (hrows : ∀ row ∈ pa, is_bytes row)
    (y x v : Nat) (hv : v < 256) : ∀ row ∈ set_pixel pa y x v, is_bytes row := by
  intro row hrow
  unfold set_pixel at hrow
  rcases List.mem_or_eq_of_mem_set hrow with hmem | heq
  · exact hrows row hmem
  · intro p hp
    rw [heq] at hp
    rcases List.mem_or_eq_of_mem_set hp with hmem | hpe
    · by_cases hy : y < pa.length
      · rw [List.getD_eq_getElem _ _ hy] at hmem
        exact hrows _ (List.getElem_mem _) p hmem
      · rw [List.getD_eq_default _ _ (by omega)] at hmem
        simp at hmem
    · rw [hpe]; exact hv

/-- One pixel stored, from the stream or from the uninitialised local: the grid keeps its
shape and holds bytes. -/
theorem read_pixel_uninit_sound (junk : Nat → Nat → Nat) (hj : ∀ y x, junk y x < 256)
    (h w y x : Nat) (s : ReadState)
    (hs : is_grid s.pixel_array h w ∧ (∀ row ∈ s.pixel_array, is_bytes row) ∧ is_bytes s.ifs) :
    is_grid (read_pixel_uninit junk y s x).pixel_array h w ∧
      (∀ row ∈ (read_pixel_uninit junk y s x).pixel_array, is_bytes row) ∧
      is_bytes (read_pixel_uninit junk y s x).ifs := by
  obtain ⟨hg, hrows, hifs⟩ := hs
  unfold read_pixel_uninit
  split
  · exact ⟨is_grid_set_pixel hg _ _ _, is_bytes_set_pixel _ hrows _ _ _ (hj y x),
      fun p hp => by simp at hp⟩
  · rename_i v rest hv
    have hvb : v < 256 := hifs v (by rw [hv]; exact List.mem_cons_self _ _)
    exact ⟨is_grid_set_pixel hg _ _ _, is_bytes_set_pixel _ hrows _ _ _ hvb,
      fun p hp => hifs p (by rw [hv]; exact List.mem_cons_of_mem _ hp)⟩

theorem foldl_read_pixel_uninit_sound (junk : Nat → Nat → Nat) (hj : ∀ y x, junk y x < 256)
    (h w y : Nat) (xs : List Nat) (s : ReadState)
    (hs : is_grid s.pixel_array h w ∧ (∀ row ∈ s.pixel_array, is_bytes row) ∧ is_bytes s.ifs) :
    is_grid (xs.foldl (read_pixel_uninit junk y) s).pixel_array h w ∧
      (∀ row ∈ (xs.foldl (read_pixel_uninit junk y) s).pixel_array, is_bytes row) ∧
      is_bytes (xs.foldl (read_pixel_uninit junk y) s).ifs := by
  induction xs generalizing s with
  | nil => exact hs
  | cons x xs ih =>
    rw [List.foldl_cons]
    exact ih _ (read_pixel_uninit_sound junk hj h w y x s hs)

theorem read_row_uninit_sound (junk : Nat → Nat → Nat) (hj : ∀ y x, junk y x < 256)
    (h w width pad y : Nat) (s : ReadState)
    (hs : is_grid s.pixel_array h w ∧ (∀ row ∈ s.pixel_array, is_bytes row) ∧ is_bytes s.ifs) :
    is_grid (read_row_uninit junk width pad s y).pixel_array h w ∧
      (∀ row ∈ (read_row_uninit junk width pad s y).pixel_array, is_bytes row) ∧
      is_bytes (read_row_uninit junk width pad s y).ifs := by
  obtain ⟨hg, hrows, hifs⟩ := foldl_read_pixel_uninit_sound junk hj h w y (List.range width) s hs
  exact ⟨hg, hrows, is_bytes_drop hifs _⟩

theorem foldl_read_row_uninit_sound (junk : Nat → Nat → Nat) (hj : ∀ y x, junk y x < 256)
    (h w width pad : Nat) (ys : List Nat) (s : ReadState)
    (hs : is_grid s.pixel_array h w ∧ (∀ row ∈ s.pixel_array, is_bytes row) ∧ is_bytes s.ifs) :
    is_grid (ys.foldl (read_row_uninit junk width pad) s).pixel_array h w ∧
      (∀ row ∈ (ys.foldl (read_row_uninit junk width pad) s).pixel_array, is_bytes row) ∧
      is_bytes (ys.foldl (read_row_uninit junk width pad) s).ifs := by
  induction ys generalizing s with
  | nil => exact hs
  | cons y ys ih =>
    rw [List.foldl_cons]
    exact ih _ (read_row_uninit_sound junk hj h w width pad y s hs)

/-- The object `Bitmap::read` returns once both format tests passed and the sizes are not
negative, whatever the length of the stream. -/
theorem read_uninit_ok (table : List Nat) (junk : Nat → Nat → Nat) (ifs : List Nat)
    (htype : (Bitmap_file_header.of_bytes
      (overlay (ifs.take 14) ({} : Bitmap_file_header).bytes)).type = 0x4D42)
    (hbits : (DIB_header.of_bytes
      (overlay ((ifs.drop 14).take 40) ({} : DIB_header).bytes)).bit_count = 8)
    (hh : 0 ≤ (DIB_header.of_bytes
      (overlay ((ifs.drop 14).take 40) ({} : DIB_header).bytes)).height)
    (hw : 0 ≤ (DIB_header.of_bytes
      (overlay ((ifs.drop 14).take 40) ({} : DIB_header).bytes)).width) :
    read_uninit table junk ifs = .ok
      ⟨row_padding (DIB_header.of_bytes
          (overlay ((ifs.drop 14).take 40) ({} : DIB_header).bytes)).width,
        Bitmap_file_header.of_bytes (overlay (ifs.take 14) ({} : Bitmap_file_header).bytes),
        DIB_header.of_bytes (overlay ((ifs.drop 14).take 40) ({} : DIB_header).bytes),
        overlay ((ifs.drop 54).take 1024) table,
        ((List.range (DIB_header.of_bytes
            (overlay ((ifs.drop 14).take 40) ({} : DIB_header).bytes)).height.toNat).foldl
          (read_row_uninit junk
            (DIB_header.of_bytes
              (overlay ((ifs.drop 14).take 40) ({} : DIB_header).bytes)).width.toNat
            (row_padding (DIB_header.of_bytes
              (overlay ((ifs.drop 14).take 40) ({} : DIB_header).bytes)).width).toNat)
          ⟨ifs.drop 1078, List.replicate
            (DIB_header.of_bytes
              (overlay ((ifs.drop 14).take 40) ({} : DIB_header).bytes)).height.toNat
            (List.replicate (DIB_header.of_bytes
              (overlay ((ifs.drop 14).take 40) ({} : DIB_header).bytes)).width.toNat 0)⟩
          ).pixel_array⟩ := by
  unfold read_uninit
  simp only [List.drop_drop, num_colors, Nat.reduceMul, Nat.reduceAdd]
  rw [if_neg (not_not.2 htype), if_neg (not_not.2 hbits), if_neg (by omega)]

/-- What a returned object went through: both format tests passed, the sizes are not
negative, and the grid is the outcome of the pixel loops on a grid of that size. -/
theorem read_uninit_inv (table : List Nat) (junk : Nat → Nat → Nat) (ifs : List Nat)
    (img : Bitmap) (h : read_uninit table junk ifs = .ok img) :
    0 ≤ img.info_header.height ∧ 0 ≤ img.info_header.width ∧
    img.num_padding = row_padding img.info_header.width ∧
    img.pixel_array = ((List.range img.info_header.height.toNat).foldl
      (read_row_uninit junk img.info_header.width.toNat
        (row_padding img.info_header.width).toNat)
      ⟨ifs.drop 1078, List.replicate img.info_header.height.toNat
        (List.replicate img.info_header.width.toNat 0)⟩).pixel_array := by
  unfold read_uninit at h
  simp only [List.drop_drop, num_colors, Nat.reduceMul, Nat.reduceAdd] at h
  split at h
  · cases h
  · split at h
    · cases h
    · split at h
      · cases h
      · rename_i hdim
        simp only [Except.ok.injEq] at h
        subst h
        refine ⟨?_, ?_, rfl, rfl⟩
        · dsimp only
          omega
        · dsimp only
          omega

/-- Every object `Bitmap::read` returns on a stream of bytes satisfies the invariant, the
stream being complete or not. -/
theorem read_uninit_invariant (table : List Nat) (junk : Nat → Nat → Nat)
    (hj : ∀ y x, junk y x < 256) (ifs : List Nat) (hb : is_bytes ifs) (img : Bitmap)
    (h : read_uninit table junk ifs = .ok img) : img.invariant := by
  obtain ⟨hh, hw, hnp, hpa⟩ := read_uninit_inv table junk ifs img h
  obtain ⟨hg, hrows, -⟩ := foldl_read_row_uninit_sound junk hj img.info_header.height.toNat
    img.info_header.width.toNat img.info_header.width.toNat
    (row_padding img.info_header.width).toNat (List.range img.info_header.height.toNat)
    ⟨ifs.drop 1078, List.replicate img.info_header.height.toNat
      (List.replicate img.info_header.width.toNat 0)⟩
    ⟨is_grid_replicate _ _, by
      intro row hrow p hp
      rw [(List.mem_replicate.1 hrow).2] at hp
      rw [(List.mem_replicate.1 hp).2]
      decide, is_bytes_drop hb _⟩
  rw [← hpa] at hg hrows
  refine ⟨?_, fun row hrow => ⟨?_, hrows row hrow⟩, ?_⟩
  · rw [hg.1]; omega
  · rw [hg.2 row hrow]; omega
  · rw [hnp]; exact (row_padding_nonneg_width _ hw).1

/-! ### Where the stream holds every byte, both models of `Bitmap::read` agree -/

theorem foldl_read_pixel_none (y : Nat) (xs : List Nat) :
    xs.foldl (read_pixel y) none = none := by
  induction xs with
  | nil => rfl
  | cons x xs ih => rw [List.foldl_cons]; exact ih

theorem foldl_read_pixel_agree (junk : Nat → Nat → Nat) (y : Nat) (xs : List Nat)
    (s s' : ReadState) (h : xs.foldl (read_pixel y) (some s) = some s') :
    xs.foldl (read_pixel_uninit junk y) s = s' := by
  induction xs generalizing s with
  | nil =>
    simp only [List.foldl_nil, Option.some.injEq] at h
    exact h
  | cons x xs ih =>
    rw [List.foldl_cons] at h ⊢
    cases hifs : s.ifs with
    | nil =>
      have hn : read_pixel y (some s) x = none := by simp [read_pixel, hifs]
      rw [hn, foldl_read_pixel_none] at h
      cases h
    | cons c rest =>
      have h1 : read_pixel y (some s) x = some ⟨rest, set_pixel s.pixel_array y x c⟩ := by
        simp [read_pixel, hifs]
      have h2 : read_pixel_uninit junk y s x = ⟨rest, set_pixel s.pixel_array y x c⟩ := by
        simp [read_pixel_uninit, hifs]
      rw [h1] at h
      rw [h2]
      exact ih _ h

theorem foldl_read_row_none (width pad : Nat) (ys : List Nat) :
    ys.foldl (read_row width pad) none = none := by
  induction ys with
  | nil => rfl
  | cons y ys ih =>
    rw [List.foldl_cons]
    have : read_row width pad none y = none := by
      unfold read_row
      rw [foldl_read_pixel_none]
    rw [this]
    exact ih

theorem read_row_agree (junk : Nat → Nat → Nat) (width pad y : Nat) (s s' : ReadState)
    (h : read_row width pad (some s) y = some s') : read_row_uninit junk width pad s y = s' := by
  unfold read_row at h
  split at h
  · cases h
  · rename_i s1 hs1
    simp only [Option.some.injEq] at h
    unfold read_row_uninit
    rw [foldl_read_pixel_agree junk y _ s s1 hs1]
    exact h

theorem foldl_read_row_agree (junk : Nat → Nat → Nat) (width pad : Nat) (ys : List Nat)
    (s s' : ReadState) (h : ys.foldl (read_row width pad) (some s) = some s') :
    ys.foldl (read_row_uninit junk width pad) s = s' := by
  induction ys generalizing s with
  | nil =>
    simp only [List.foldl_nil, Option.some.injEq] at h
    exact h
  | cons y ys ih =>
    rw [List.foldl_cons] at h ⊢
    cases hr : read_row width pad (some s) y with
    | none =>
      rw [hr, foldl_read_row_none] at h
      cases h
    | some s1 =>
      rw [hr] at h
      rw [read_row_agree junk width pad y s s1 hr]
      exact ih _ h

/-- An image `read` returns is the object `read_uninit` returns, whatever the uninitialised
bytes are: every byte was read from the stream. -/
theorem read_uninit_of_read (table : List Nat) (junk : Nat → Nat → Nat)
    (htab : table.length = 1024) (ifs : List Nat) (img : Bitmap) (h : read ifs = .ok img) :
    read_uninit table junk ifs = .ok img := by
  unfold read at h
  simp only [List.drop_drop, num_colors, Nat.reduceMul, Nat.reduceAdd] at h
  split at h
  · cases h
  · rename_i htype
    split at h
    · cases h
    · rename_i hbits
      split at h
      · cases h
      · rename_i hdim
        split at h
        · cases h
        · rename_i hct
          split at h
          · cases h
          · rename_i s hs
            simp only [Except.ok.injEq] at h
            rw [read_uninit_ok table junk ifs (not_not.1 htype) (not_not.1 hbits) (by omega)
              (by omega), foldl_read_row_agree junk _ _ _ _ s hs,
              overlay_full ((ifs.drop 54).take 1024) table (by rw [htab]; omega), h]

/-- On an accepted stream that ends with its colour table while the image has a pixel to
read, the first pixel read finds the stream exhausted: `read` gives no image. -/
theorem read_indeterminate (ifs : List Nat)
    (hmagic : stream_type ifs = 0x4D42) (hbits : stream_bit_count ifs = 8)
    (hw : 1 ≤ stream_width ifs) (hh : 1 ≤ stream_height ifs) (hlen : ifs.length ≤ 1078) :
    read ifs = .error .indeterminate := by
  have htype := read_type_of_bit_count ifs hbits
  rw [hmagic] at htype
  have hb := read_bit_count_eq ifs
  rw [hbits] at hb
  have ew := read_width_eq ifs
  have eh := read_height_eq ifs
  obtain ⟨k, hk⟩ : ∃ k, (stream_height ifs).toNat = k + 1 := ⟨(stream_height ifs).toNat - 1, by omega⟩
  obtain ⟨j, hj⟩ : ∃ j, (stream_width ifs).toNat = j + 1 := ⟨(stream_width ifs).toNat - 1, by omega⟩
  unfold read
  simp only [List.drop_drop, num_colors, Nat.reduceMul, Nat.reduceAdd]
  rw [if_neg (not_not.2 htype), if_neg (not_not.2 hb), if_neg (by rw [ew, eh]; omega)]
  split
  · rfl
  · rw [ew, eh, hk, hj, List.drop_eq_nil_of_le hlen, List.range_succ_eq_map, List.foldl_cons]
    have hrow : read_row (j + 1) (row_padding (stream_width ifs)).toNat
        (some ⟨[], List.replicate (k + 1) (List.replicate (j + 1) 0)⟩) 0 = none := by
      unfold read_row
      rw [List.range_succ_eq_map, List.foldl_cons]
      have hp : read_pixel 0 (some ⟨[], List.replicate (k + 1) (List.replicate (j + 1) 0)⟩) 0
          = none := rfl
      rw [hp, foldl_read_pixel_none]
    rw [hrow, foldl_read_row_none]

/-- C12 (Image invariant): the predicate "`pixel_array` has exactly `height` rows, each of
exactly `width` bytes, and `num_padding = (4 - width mod 4) mod 4`" holds for every image
`Bitmap::read` returns on a stream of bytes; it does return one on every stream accepted by
both format tests whose width and height are not negative, also on one that ends before the
colour table or the rows are complete (the bytes not read being any bytes); the image
`read` gives on a complete stream is that object; and the predicate holds for the image
`crop` returns on a source that satisfies it and on which the four scans each find a
pixel. -/
theorem image_invariant (table : List Nat) (junk : Nat → Nat → Nat) (ifs : List Nat)
    (b : Bitmap) (bd : Bounds) (hbytes : is_bytes ifs) (hjunk : ∀ y x, junk y x < 256)
    (htab : table.length = 1024) :
    (∀ img, read_uninit table junk ifs = .ok img → img.invariant) ∧
    (stream_type ifs = 0x4D42 → stream_bit_count ifs = 8 →
      0 ≤ stream_width ifs → 0 ≤ stream_height ifs →
      ∃ img, read_uninit table junk ifs = .ok img ∧ img.invariant ∧
        img.info_header.width = stream_width ifs ∧
        img.info_header.height = stream_height ifs) ∧
    (∀ img, read ifs = .ok img → read_uninit table junk ifs = .ok img ∧ img.invariant) ∧
    (b.invariant → crop_bounds b = some bd →
      ∃ copy, crop b = some copy ∧ copy.invariant) := by
  refine ⟨fun img h => read_uninit_invariant table junk hjunk ifs hbytes img h, ?_, ?_, ?_⟩
  · intro hmagic hbits hw hh
    have h := read_uninit_ok table junk ifs
      (by rw [read_type_of_bit_count ifs hbits]; exact hmagic)
      (by rw [read_bit_count_eq]; exact hbits)
      (by rw [read_height_eq]; exact hh) (by rw [read_width_eq]; exact hw)
    exact ⟨_, h, read_uninit_invariant table junk hjunk ifs hbytes _ h, read_width_eq ifs,
      read_height_eq ifs⟩
  · intro img h
    have h' := read_uninit_of_read table junk htab ifs img h
    exact ⟨h', read_uninit_invariant table junk hjunk ifs hbytes img h'⟩
  · intro hinv hb
    obtain ⟨-, -, s3, s4⟩ := (crop_bounds_eq_some b bd).1 hb
    obtain ⟨o1, -⟩ := (scan_rows_downto _ _ _ _ _ _ _).1 s3
    obtain ⟨o3, -⟩ := (scan_cols_downto _ _ _ _ _ _ _).1 s4
    refine ⟨crop_copy b bd, ?_, crop_copy_invariant b bd (fun row hrow => (hinv.2.1 row hrow).2)
      o1 o3⟩
    unfold crop
    rw [hb]

theorem file_1x1_head_bytes : is_bytes file_1x1_head := by
  intro x hx
  exact file_1x1_bytes.1 x (by rw [file_1x1]; exact List.mem_append_left _ hx)

/-- C12, witness: the file of the 1×1 image cut after its colour table (1078 bytes, no
pixel byte) is accepted; `read` gives no image for it, yet the object `Bitmap::read`
returns is 1×1 and satisfies the invariant, and the crop of the 3×3 image satisfies it
too. -/
theorem image_invariant_witness :
    is_bytes file_1x1_head ∧ file_1x1_head.length = 1078 ∧
    stream_type file_1x1_head = 0x4D42 ∧ stream_bit_count file_1x1_head = 8 ∧
    image_3x3.invariant ∧ crop_bounds image_3x3 = some ⟨1, 1, 1, 1⟩ ∧
    read file_1x1_head = .error .indeterminate ∧
    (∃ img, read_uninit blank_table (fun _ _ => 0xCD) file_1x1_head = .ok img ∧
      img.invariant ∧ img.info_header.width = 1 ∧ img.info_header.height = 1) ∧
    (∃ copy, crop image_3x3 = some copy ∧ copy.invariant) := by
  have hw : stream_width file_1x1_head = 1 := by decide
  have hh : stream_height file_1x1_head = 1 := by decide
  have h := image_invariant blank_table (fun _ _ => 0xCD) file_1x1_head image_3x3 ⟨1, 1, 1, 1⟩
    file_1x1_head_bytes (fun _ _ => (by decide : (0xCD : Nat) < 256))
    (List.length_replicate 1024 0)
  refine ⟨file_1x1_head_bytes, length_file_1x1_head, by decide, by decide, by decide, by decide,
    read_indeterminate file_1x1_head (by decide) (by decide) (by rw [hw]) (by rw [hh])
      (by rw [length_file_1x1_head]),
    ?_, h.2.2.2 (by decide) (by decide)⟩
  obtain ⟨img, hread, hinv, h1, h2⟩ :=
    h.2.1 (by decide) (by decide) (by rw [hw]; decide) (by rw [hh]; decide)
  exact ⟨img, hread, hinv, by rw [h1, hw], by rw [h2, hh]⟩

end ImageCropper
